import Mathlib

/-! # request-api-factory: the request builder `apiCall`

A shallow embedding of `src/lib/request-api-factory.js`.

* JavaScript objects are insertion-ordered association lists with distinct keys (`Obj`).
  The values they carry are only ever copied by the builder, so they are scalars (`Val`).
  Property names are taken not to be array indices, which JavaScript enumerates first.
* An absent property and a property holding `undefined` both read as `undefined`; both are
  `none` here. The optional `data` argument of `apiCall` is an `Option Obj`.
* An endpoint definition is a record of the top-level fields the builder reads or writes
  (`Fields`), every other field going to `rest`, and the optional hook `extendConfig`. The
  hook is a function from the fresh config and the call-time data to the config as it leaves
  it; it does not raise and changes nothing but the config.
* `extend` (the package `node.extend`) is not part of the sources; it is modelled from the
  spec's description of the merge collaborator.
* `apiCall` has three kinds of result: the rejected promise of line 28, the call of the
  transport `request(config)` of line 60, and a `TypeError` raised while the body runs.
* `makeApi` walks the values of a schema (`Node`) within a bounded call stack and returns the
  members it assigns to its target, or how it failed.
* `apiCallOnHeap` is `apiCall` once more, for definitions without a hook, on a heap where
  objects have addresses and every write names its target; it is related to `apiCall` by
  `apiCallOnHeap_refines`.
-/

set_option autoImplicit false

namespace RequestApiFactory

/-! ## Values and objects -/

/-- Scalar JavaScript values stored in payloads and headers. -/
inductive Val where
  | null
  | bool (b : Bool)
  | num (n : Int)
  | str (s : String)
  deriving DecidableEq, Repr

/-- A JavaScript object: its own enumerable properties in enumeration order, keys distinct. -/
structure Obj where
  entries : List (String × Val)
  nodup : (entries.map Prod.fst).Nodup

instance : DecidableEq Obj := fun a b =>
  match a, b with
  | ⟨ea, _⟩, ⟨eb, _⟩ =>
    if h : ea = eb then isTrue (by subst h; rfl)
    else isFalse (fun heq => h (congrArg Obj.entries heq))

namespace Obj

/-- The object literal `{}`. -/
def empty : Obj := ⟨[], List.nodup_nil⟩

/-- `Object.keys(o)`. -/
def keys (o : Obj) : List String := o.entries.map Prod.fst

/-- Property read `o[k]`; `none` is `undefined`. -/
def get (o : Obj) (k : String) : Option Val := o.entries.lookup k

end Obj

/-- Property write `target[k] = v` on the entry list: an existing key keeps its place, a new
key goes last. -/
def setEntry (k : String) (v : Val) : List (String × Val) → List (String × Val)
  | [] => [(k, v)]
  | (k', v') :: rest => if k' = k then (k, v) :: rest else (k', v') :: setEntry k v rest

theorem keys_setEntry (k : String) (v : Val) (l : List (String × Val)) :
    (setEntry k v l).map Prod.fst =
      if k ∈ l.map Prod.fst then l.map Prod.fst else l.map Prod.fst ++ [k] := by
  induction l with
  | nil => simp [setEntry]
  | cons hd tl ih =>
    obtain ⟨k', v'⟩ := hd
    by_cases h : k' = k
    · subst h; simp [setEntry]
    · have h' : ¬ k = k' := fun e => h e.symm
      simp only [setEntry, h, if_false, List.map_cons, ih, List.mem_cons, h', false_or]
      split <;> simp

theorem nodup_setEntry (k : String) (v : Val) (l : List (String × Val))
    (h : (l.map Prod.fst).Nodup) : ((setEntry k v l).map Prod.fst).Nodup := by
  rw [keys_setEntry]
  split
  · exact h
  · rename_i hk
    exact List.Nodup.append h (List.nodup_singleton k) (by simpa using hk)

/-- Property write `target[k] = v`. -/
def Obj.set (o : Obj) (k : String) (v : Val) : Obj :=
  ⟨setEntry k v o.entries, nodup_setEntry k v o.entries o.nodup⟩

/-- The loop `for (name in options) target[name] = options[name]`. -/
def copyInto (target : Obj) : List (String × Val) → Obj
  | [] => target
  | (k, v) :: rest => copyInto (target.set k v) rest

/-- Modelled from the spec: the merge collaborator `extend` (the package `node.extend`, not
part of this repository's sources), "a shallow-merge-of-mappings utility (later-argument keys
override earlier ones)". Every source is copied into the target in argument order; a source
that is `undefined` contributes nothing. -/
def extend (target : Obj) : List (Option Obj) → Obj
  | [] => target
  | none :: rest => extend target rest
  | some src :: rest => extend (copyInto target src.entries) rest

/-! ## Strings and arrays -/

/-- `s.toLowerCase()`. Only compared against `'get'` and `'content-type'`, whose letters are
the lower-case form of their ASCII capitals alone. -/
def toLowerCase (s : String) : String := ⟨s.data.map Char.toLower⟩

/-- Search for `needle` in `hay` from position `i` on. -/
def indexOfFrom (needle : List Char) : List Char → Int → Int
  | [], i => if needle.isPrefixOf [] then i else -1
  | c :: cs, i => if needle.isPrefixOf (c :: cs) then i else indexOfFrom needle cs (i + 1)

/-- `hay.indexOf(needle)` on strings: the first position of `needle`, or `-1`. -/
def indexOf (hay needle : String) : Int := indexOfFrom needle.data hay.data 0

/-- Search for `item` in an array from position `i` on. -/
def arrayIndexOfFrom (item : String) : List String → Int → Int
  | [], _ => -1
  | x :: xs, i => if x = item then i else arrayIndexOfFrom item xs (i + 1)

/-- `xs.indexOf(item)` on arrays: the first position of `item`, or `-1`. -/
def arrayIndexOf (xs : List String) (item : String) : Int := arrayIndexOfFrom item xs 0

/-- `xs.join(sep)`. -/
def join (xs : List String) (sep : String) : String := sep.intercalate xs

/-! ## Endpoint definitions and request configs -/

/-- The `data` sub-record of an endpoint definition. -/
structure DataRules where
  defaults : Option Obj := none
  required : Option (List String) := none
  validate : Option Bool := none
  deriving DecidableEq

/-- The top-level fields shared by an endpoint definition (`D = DataRules`) and by the request
config built from it (`D = Obj`). `rest` holds every other top-level field. -/
structure Fields (D : Type) where
  method : Option String := none
  url : Option String := none
  headers : Option Obj := none
  data : Option D := none
  qs : Option Obj := none
  form : Option Obj := none
  formData : Option Obj := none
  body : Option Obj := none
  json : Option Bool := none
  rest : List (String × Val) := []
  deriving DecidableEq

/-- The request config handed to the transport. -/
abbrev Config := Fields Obj

/-- An endpoint definition: its fields and the optional hook `extendConfig(config, data)`,
which returns the config as the hook left it. -/
structure Schema where
  fields : Fields DataRules := {}
  extendConfig : Option (Fields DataRules → Option Obj → Fields DataRules) := none

/-- What a call of `apiCall` ends in. -/
inductive Outcome where
  | rejected (message : String)
  | dispatched (config : Config)
  | threw
  deriving DecidableEq

/-! ## `apiCall` -/

/-- Lines 13-17: `config = extend({}, schema)`, then the hook when there is one. -/
def preConfig (schema : Schema) (data : Option Obj) : Fields DataRules :=
  match schema.extendConfig with
  | some hook => hook schema.fields data
  | none => schema.fields

/-- The mapping `schema.data && schema.data.defaults`. -/
def defaultsOf (schema : Schema) : Option Obj :=
  match schema.fields.data with
  | some rules => rules.defaults
  | none => none

/-- Line 19: the value stored as `config.data`. -/
def effectiveData (schema : Schema) (data : Option Obj) : Option Obj :=
  match defaultsOf schema with
  | some defaults => some (extend Obj.empty [some defaults, data])
  | none => data

/-- Line 21: the required list when the validation block is entered. -/
def validated (schema : Schema) : Option (List String) :=
  match schema.fields.data with
  | none => none
  | some rules =>
    match rules.required, rules.validate with
    | some required, none => some required
    | some required, some true => some required
    | _, _ => none

/-- Lines 23-25: `required.every(item => Object.keys(config.data).indexOf(item) >= 0)`;
`none` when `Object.keys` is applied to `undefined`. -/
def requiredOk (payload : Option Obj) : List String → Option Bool
  | [] => some true
  | item :: rest =>
    match payload with
    | none => none
    | some p =>
      if arrayIndexOf p.keys item ≥ 0 then requiredOk payload rest else some false

/-- Line 28: the rejection value. -/
def missingMessage (required : List String) (payload : Obj) : String :=
  "Missing some of the following required parameters: " ++ join required ", " ++
    " :: Current parameters :: " ++ join payload.keys ", "

/-- Line 32: `!schema.method || schema.method.toLowerCase() == 'get'`. -/
def isGet (schema : Schema) : Bool :=
  match schema.fields.method with
  | none => true
  | some m => m = "" || toLowerCase m = "get"

/-- Lines 37-39: the first header name that lower-cases to `content-type`. -/
def contentTypeKey (headers : Obj) : Option String :=
  headers.keys.find? (fun item => toLowerCase item = "content-type")

/-- Line 41: `schema.headers[contentTypeKey]`; an `undefined` key reads the property
`"undefined"`. -/
def contentType (headers : Obj) : Option Val :=
  match contentTypeKey headers with
  | some key => headers.get key
  | none => headers.get "undefined"

/-- Lines 32-34. -/
def routeQuery (schema : Schema) (config : Config) : Config :=
  if isGet schema then { config with qs := config.data } else config

/-- Lines 42-53, for a content type that is a string. -/
def routeByContentType (ct : String) (config : Config) : Config :=
  let c1 := if indexOf ct "application/x-www-form-urlencoded" ≥ 0
    then { config with form := config.data } else config
  let c2 := if indexOf ct "multipart/form-data" ≥ 0
    then { c1 with formData := c1.data } else c1
  if indexOf ct "application/json" ≥ 0
    then { c2 with body := c2.data, json := some true } else c2

/-- Lines 32-60: channel selection and the call of the transport. A content type that is not
a string has no `indexOf` method, and line 42 raises. -/
def route (schema : Schema) (config : Config) : Outcome :=
  let c := routeQuery schema config
  match schema.fields.headers with
  | some headers =>
    match contentType headers with
    | some (Val.str ct) => Outcome.dispatched (routeByContentType ct c)
    | _ => Outcome.threw
  | none => Outcome.dispatched { c with body := c.data, json := some true }

/-- The config after line 19: the hook's config with `data` replaced by the payload. -/
def withData (pre : Fields DataRules) (payload : Option Obj) : Config :=
  { method := pre.method, url := pre.url, headers := pre.headers, data := payload,
    qs := pre.qs, form := pre.form, formData := pre.formData, body := pre.body,
    json := pre.json, rest := pre.rest }

/-- The request builder `apiCall(schema, data)`. -/
def apiCall (schema : Schema) (data : Option Obj) : Outcome :=
  let payload := effectiveData schema data
  let config := withData (preConfig schema data) payload
  match validated schema with
  | some required =>
    match requiredOk payload required, payload with
    | some true, _ => route schema config
    | some false, some p => Outcome.rejected (missingMessage required p)
    | _, _ => Outcome.threw
  | none => route schema config

/-- Lines 36-53 read as a test: headers are present, the content type read from them is a
string, and `contentType.indexOf(marker) >= 0`. -/
def contentTypeContains (schema : Schema) (marker : String) : Bool :=
  match schema.fields.headers with
  | some headers =>
    match contentType headers with
    | some (Val.str ct) => indexOf ct marker ≥ 0
    | _ => false
  | none => false

/-- The four transmission channels of a config. -/
def channels (config : Config) : List (Option Obj) :=
  [config.qs, config.form, config.formData, config.body]

/-- How many of the four transmission channels are populated. -/
def populatedCount (config : Config) : Nat := (channels config).countP Option.isSome

/-! ## Concrete definitions and payloads -/

/-- The payload `{a: 1}`. -/
def dataA : Obj := ⟨[("a", Val.num 1)], by decide⟩

/-- The payload `{x: 2}`. -/
def dataX2 : Obj := ⟨[("x", Val.num 2)], by decide⟩

/-- The mapping `{x: 1}`. -/
def dataX1 : Obj := ⟨[("x", Val.num 1)], by decide⟩

/-- The definition `{method: 'post', url: '/items', headers: {Authorization: 'Bearer t'},
data: {required: ['a']}}`. -/
def tokenOnly : Schema :=
  { fields :=
      { method := some "post", url := some "/items",
        headers := some ⟨[("Authorization", Val.str "Bearer t")], by decide⟩,
        data := some { required := some ["a"] } } }

/-- The definition `{method: 'post', url: '/items', headers: {Accept: 'application/json'}}`. -/
def acceptOnly : Schema :=
  { fields :=
      { method := some "post", url := some "/items",
        headers := some ⟨[("Accept", Val.str "application/json")], by decide⟩ } }

/-- The data rules `{required: ['a', 'b']}`. -/
def rulesAB : DataRules := { required := some ["a", "b"] }

/-- The definition `{url: '/items', data: {required: ['a', 'b']}}`. -/
def needsAB : Schema := { fields := { url := some "/items", data := some rulesAB } }

/-- The data rules `{required: ['a', 'b'], validate: false}`. -/
def rulesABUnchecked : DataRules := { required := some ["a", "b"], validate := some false }

/-- The definition `{url: '/items', data: {required: ['a', 'b'], validate: false}}`. -/
def needsABUnchecked : Schema :=
  { fields := { url := some "/items", data := some rulesABUnchecked } }

/-- The definition `{url: '/items'}`: no method, no headers. -/
def bare : Schema := { fields := { url := some "/items" } }

/-- The headers `{'Content-Type': 'text/plain'}`. -/
def headersText : Obj := ⟨[("Content-Type", Val.str "text/plain")], by decide⟩

/-- The headers `{'Content-Type': 'multipart/form-data'}`. -/
def headersMultipart : Obj := ⟨[("Content-Type", Val.str "multipart/form-data")], by decide⟩

/-- The definition `{method: 'post', url: '/items', headers: {'Content-Type': 'text/plain'}}`. -/
def postText : Schema :=
  { fields := { method := some "post", url := some "/items", headers := some headersText } }

/-- The definition `{method: 'GET', url: '/items',
headers: {'Content-Type': 'multipart/form-data'}}`. -/
def getMultipart : Schema :=
  { fields := { method := some "GET", url := some "/items", headers := some headersMultipart } }

/-- The definition `{method: 'post', url: '/items',
headers: {'Content-Type': 'multipart/form-data'}}`. -/
def postMultipart : Schema :=
  { fields := { method := some "post", url := some "/items", headers := some headersMultipart } }

/-- The data rules `{defaults: {x: 1}}`. -/
def rulesX1 : DataRules := { defaults := some dataX1 }

/-- The definition `{url: '/items', data: {defaults: {x: 1}}}`. -/
def defaultsX1 : Schema := { fields := { url := some "/items", data := some rulesX1 } }

/-- The definition `{url: '/items', data: {required: ['a']}}`. -/
def needsA : Schema :=
  { fields := { url := some "/items", data := some { required := some ["a"] } } }

/-- The data rules `{defaults: {a: 1}, required: ['a']}`. -/
def rulesDefaultA : DataRules := { defaults := some dataA, required := some ["a"] }

/-- The definition `{url: '/items', data: {defaults: {a: 1}, required: ['a']}}`. -/
def defaultsCoverRequired : Schema :=
  { fields := { url := some "/items", data := some rulesDefaultA } }

/-- The headers `{'Content-Type': 'application/json',
'content-type': 'application/x-www-form-urlencoded'}`. -/
def headersTwoContentTypes : Obj :=
  ⟨[("Content-Type", Val.str "application/json"),
    ("content-type", Val.str "application/x-www-form-urlencoded")], by decide⟩

/-- The definition `{method: 'post', url: '/items', headers: headersTwoContentTypes}`. -/
def postTwoContentTypes : Schema :=
  { fields :=
      { method := some "post", url := some "/items", headers := some headersTwoContentTypes } }

/-- The headers `{Accept: 'text/html',
'CONTENT-TYPE': 'application/x-www-form-urlencoded; charset=utf-8'}`. -/
def headersFormUpper : Obj :=
  ⟨[("Accept", Val.str "text/html"),
    ("CONTENT-TYPE", Val.str "application/x-www-form-urlencoded; charset=utf-8")], by decide⟩

/-- The headers `{Accept: 'text/html',
'Content-Type': 'application/x-www-form-urlencoded; charset=utf-8'}`. -/
def headersFormMixed : Obj :=
  ⟨[("Accept", Val.str "text/html"),
    ("Content-Type", Val.str "application/x-www-form-urlencoded; charset=utf-8")], by decide⟩

/-- The definition `{method: 'post', url: '/items', headers: headersFormUpper}`. -/
def postFormUpper : Schema :=
  { fields := { method := some "post", url := some "/items", headers := some headersFormUpper } }

/-- The definition `{method: 'post', url: '/items', headers: headersFormMixed}`. -/
def postFormMixed : Schema :=
  { fields := { method := some "post", url := some "/items", headers := some headersFormMixed } }

/-! ## Schema trees and `makeApi` -/

/-- A value found under a key of the schema passed to the factory. A mapping whose `apiSchema`
property is truthy is an `endpoint`, and that property is its endpoint definition; the
`children` of a `mapping` are the properties of any other mapping, in enumeration order. -/
inductive Node where
  | undefined
  | scalar (v : Val)
  | endpoint (apiSchema : Schema)
  | mapping (children : List (String × Node))

/-- The generated API: a method made by `createMethod`, holding the definition it was made
for, or an object holding the members built for a nested schema. -/
inductive Api where
  | method (schema : Schema)
  | object (members : List (String × Api))

/-- How `makeApi` can fail: a `TypeError` from reading a property of `null` or `undefined`,
or a `RangeError` when the recursion of line 76 uses up the call stack. -/
inductive Failure where
  | typeError
  | rangeError
  deriving DecidableEq

/-- The property `schema` of a generated method (line 73). -/
def Api.schema : Api → Option Schema
  | Api.method definition => some definition
  | Api.object _ => none

/-- Calling a generated method with `data` (lines 64-66); an object is not callable. -/
def Api.invoke : Api → Option Obj → Option Outcome
  | Api.method definition, data => some (apiCall definition data)
  | Api.object _, _ => none

/-- The keys `for (let key in s)` visits for a string `s`, with the values `s[key]`: the
positions of `s`, each holding the one-character string found there. -/
def characters (s : String) : List (String × Node) :=
  s.data.enum.map (fun ic => (toString ic.1, Node.scalar (Val.str (String.singleton ic.2))))

/-- Lines 71-77 for the value `schema[key]`; `recur` is the call `makeApi(api[key], ...)` of
line 76, given the enumerable properties of its second argument. Line 71 raises on `null`
and `undefined`; every other value without a truthy `apiSchema` takes the else branch. -/
def makeEntry (recur : List (String × Node) → Except Failure (List (String × Api))) :
    Node → Except Failure Api
  | Node.undefined => Except.error Failure.typeError
  | Node.scalar Val.null => Except.error Failure.typeError
  | Node.endpoint definition => Except.ok (Api.method definition)
  | Node.scalar (Val.str s) => (recur (characters s)).map Api.object
  | Node.scalar _ => (recur []).map Api.object
  | Node.mapping children => (recur children).map Api.object

/-- The loop of lines 70-78 over the enumerable properties of `schema`: the members assigned
to `api`, in order, or the first failure. -/
def makeApiLoop (recur : List (String × Node) → Except Failure (List (String × Api))) :
    List (String × Node) → Except Failure (List (String × Api))
  | [] => Except.ok []
  | (key, node) :: rest =>
    match makeEntry recur node with
    | Except.error e => Except.error e
    | Except.ok member =>
      match makeApiLoop recur rest with
      | Except.error e => Except.error e
      | Except.ok members => Except.ok ((key, member) :: members)

/-- The call `makeApi(api, schema)` with room for `stack` nested calls, given the enumerable
properties of `schema`; the result is what the call assigns to `api`. -/
def makeApi : Nat → List (String × Node) → Except Failure (List (String × Api))
  | 0, _ => Except.error Failure.rangeError
  | stack + 1, properties => makeApiLoop (makeApi stack) properties

mutual
/-- The spec's contract `build(target, schema)` of section 4.1 for one value: a value carrying
the endpoint marker becomes a callable exposing its definition, any other value an empty
namespace filled by recursing into it. -/
def specBuildNode : Node → Api
  | Node.endpoint definition => Api.method definition
  | Node.mapping children => Api.object (specBuild children)
  | _ => Api.object []
/-- The spec's contract `build(target, schema)` of section 4.1: for every key of `schema`, in
order, the member bound to that key. -/
def specBuild : List (String × Node) → List (String × Api)
  | [] => []
  | (key, node) :: rest => (key, specBuildNode node) :: specBuild rest
end

mutual
/-- The call-stack frames line 76 needs for one value. -/
def nodeFrames : Node → Nat
  | Node.endpoint _ => 0
  | Node.mapping children => propsFrames children
  | _ => 1
/-- The call-stack frames `makeApi` needs for a schema with these properties: one for the
call itself on top of the deepest nested call. -/
def propsFrames : List (String × Node) → Nat
  | [] => 1
  | (_, node) :: rest => max (nodeFrames node + 1) (propsFrames rest)
end

mutual
/-- A schema tree of section 3: an endpoint leaf, or a mapping of schema trees. -/
def isSchemaTree : Node → Bool
  | Node.endpoint _ => true
  | Node.mapping children => areSchemaTrees children
  | _ => false
/-- The properties of a mapping of schema trees: the keys are distinct, and none is the
endpoint marker `apiSchema`. -/
def areSchemaTrees : List (String × Node) → Bool
  | [] => true
  | (key, node) :: rest =>
    key ≠ "apiSchema" && !(rest.map Prod.fst).contains key && isSchemaTree node &&
      areSchemaTrees rest
end

mutual
/-- A value the traversal can walk: an endpoint leaf, a mapping of such values, a boolean, a
number or the empty string. -/
def isWalkable : Node → Bool
  | Node.endpoint _ => true
  | Node.mapping children => areWalkable children
  | Node.scalar (Val.bool _) => true
  | Node.scalar (Val.num _) => true
  | Node.scalar (Val.str s) => s = ""
  | _ => false
/-- The properties of a mapping of walkable values: the keys are distinct, and none is the
endpoint marker `apiSchema`. -/
def areWalkable : List (String × Node) → Bool
  | [] => true
  | (key, node) :: rest =>
    key ≠ "apiSchema" && !(rest.map Prod.fst).contains key && isWalkable node &&
      areWalkable rest
end

/-- The value `schema[k1][k2]...` for a path of keys, inside mappings only. -/
def nodeAt : List (String × Node) → List String → Option Node
  | _, [] => none
  | properties, [key] => properties.lookup key
  | properties, key :: next :: path =>
    match properties.lookup key with
    | some (Node.mapping children) => nodeAt children (next :: path)
    | _ => none

/-- The member `api[k1][k2]...` for a path of keys, inside objects only. -/
def memberAt : List (String × Api) → List String → Option Api
  | _, [] => none
  | members, [key] => members.lookup key
  | members, key :: next :: path =>
    match members.lookup key with
    | some (Api.object inner) => memberAt inner (next :: path)
    | _ => none

/-- The schema `{users: {list: {apiSchema: needsA}, create: {apiSchema: postMultipart}},
ping: {apiSchema: bare}}`. -/
def twoLevelSchema : List (String × Node) :=
  [("users", Node.mapping [("list", Node.endpoint needsA),
      ("create", Node.endpoint postMultipart)]),
    ("ping", Node.endpoint bare)]

/-- A definition or a request config on the heap. `headers`, `data` and the four channels hold
addresses; `data` is the address of the data rules in a definition and of the payload in a
config once line 19 has run. -/
structure Record where
  method : Option String := none
  url : Option String := none
  headers : Option Nat := none
  data : Option Nat := none
  qs : Option Nat := none
  form : Option Nat := none
  formData : Option Nat := none
  body : Option Nat := none
  json : Option Bool := none
  rest : List (String × Val) := []
  deriving DecidableEq

/-- An object on the heap: a mapping of scalars (headers, defaults, call-time data, payload),
a `data` sub-record holding the address of its defaults, or a definition or config. -/
inductive Cell where
  | plain (o : Obj)
  | rules (defaults : Option Nat) (required : Option (List String)) (validate : Option Bool)
  | record (r : Record)
  deriving DecidableEq

/-- The heap: the object at address `a` is the `a`-th cell. -/
abbrev Heap := List Cell

/-- What a call of `apiCall` on the heap ends in; a dispatched config is given by address. -/
inductive HeapOutcome where
  | rejected (message : String)
  | dispatched (config : Nat)
  | threw
  deriving DecidableEq

/-- The mapping of scalars at an address. -/
def plainAt (h : Heap) (a : Nat) : Option Obj :=
  match h[a]? with
  | some (Cell.plain o) => some o
  | _ => none

/-- The mapping an optional address stands for; `none` when the address holds no mapping. -/
def derefPlain (h : Heap) : Option Nat → Option (Option Obj)
  | none => some none
  | some a => (plainAt h a).map some

/-- The `data` sub-record at an address, its defaults read through their address. -/
def rulesAt (h : Heap) (a : Nat) : Option DataRules :=
  match h[a]? with
  | some (Cell.rules defaults required validate) =>
    (derefPlain h defaults).map
      (fun d => { defaults := d, required := required, validate := validate })
  | _ => none

/-- The data rules an optional address stands for. -/
def derefRules (h : Heap) : Option Nat → Option (Option DataRules)
  | none => some none
  | some a => (rulesAt h a).map some

/-- The endpoint definition at an address, every object it refers to read through its
address; `none` when the address or one of those does not hold what section 3 of the spec
describes. -/
def definitionAt (h : Heap) (a : Nat) : Option Schema :=
  match h[a]? with
  | some (Cell.record r) =>
    (derefPlain h r.headers).bind fun headers =>
    (derefRules h r.data).bind fun data =>
    (derefPlain h r.qs).bind fun qs =>
    (derefPlain h r.form).bind fun form =>
    (derefPlain h r.formData).bind fun formData =>
    (derefPlain h r.body).bind fun body =>
    some
      { fields :=
          { method := r.method, url := r.url, headers := headers, data := data, qs := qs,
            form := form, formData := formData, body := body, json := r.json, rest := r.rest },
        extendConfig := none }
  | _ => none

/-- A record read as a request config: every address replaced by the mapping found there. -/
def readRecord (h : Heap) (r : Record) : Config :=
  { method := r.method, url := r.url, headers := r.headers.bind (plainAt h),
    data := r.data.bind (plainAt h), qs := r.qs.bind (plainAt h),
    form := r.form.bind (plainAt h), formData := r.formData.bind (plainAt h),
    body := r.body.bind (plainAt h), json := r.json, rest := r.rest }

/-- The request config at an address, as the transport reads it. -/
def configAt (h : Heap) (a : Nat) : Option Config :=
  match h[a]? with
  | some (Cell.record r) => some (readRecord h r)
  | _ => none

/-- A write to properties of the record at address `a`. -/
def modify (h : Heap) (a : Nat) (f : Record → Record) : Heap :=
  match h[a]? with
  | some (Cell.record r) => h.set a (Cell.record (f r))
  | _ => h

/-- Line 19 on the heap: with defaults, `extend({}, defaults, data)` fills a new object; without,
the payload is the call-time data object itself. Returns the heap and the payload's address. -/
def mergeOnHeap (h : Heap) (schema : Nat) (data : Option Nat) : Heap × Option Nat :=
  match (definitionAt h schema).bind defaultsOf with
  | some defaults =>
    (h ++ [Cell.plain (extend Obj.empty [some defaults, data.bind (plainAt h)])], some h.length)
  | none => (h, data)

/-- Lines 42-53 on the heap: the writes to the config at address `config`. -/
def routeByContentTypeOnHeap (ct : String) (h : Heap) (config : Nat) : Heap :=
  let h1 := if indexOf ct "application/x-www-form-urlencoded" ≥ 0
    then modify h config (fun c => { c with form := c.data }) else h
  let h2 := if indexOf ct "multipart/form-data" ≥ 0
    then modify h1 config (fun c => { c with formData := c.data }) else h1
  if indexOf ct "application/json" ≥ 0
    then modify h2 config (fun c => { c with body := c.data, json := some true }) else h2

/-- Lines 32-60 on the heap. -/
def routeOnHeap (h : Heap) (schema config : Nat) : Heap × HeapOutcome :=
  match definitionAt h schema with
  | none => (h, HeapOutcome.threw)
  | some s =>
    let h1 := if isGet s then modify h config (fun c => { c with qs := c.data }) else h
    match (definitionAt h1 schema).bind (fun s1 => s1.fields.headers) with
    | some headers =>
      match contentType headers with
      | some (Val.str ct) =>
        (routeByContentTypeOnHeap ct h1 config, HeapOutcome.dispatched config)
      | _ => (h1, HeapOutcome.threw)
    | none =>
      (modify h1 config (fun c => { c with body := c.data, json := some true }),
        HeapOutcome.dispatched config)

/-- The request builder on the heap, `schema` and `data` given by address. Line 13 copies the
definition's properties, addresses included, into a new object; line 19 stores the payload's
address in that copy; the later lines write to the copy only. -/
def apiCallOnHeap (h : Heap) (schema : Nat) (data : Option Nat) : Heap × HeapOutcome :=
  match h[schema]? with
  | some (Cell.record definition) =>
    let config := h.length
    let h1 := h ++ [Cell.record definition]
    let merged := mergeOnHeap h1 schema data
    let h3 := modify merged.1 config (fun c => { c with data := merged.2 })
    let payload := merged.2.bind (plainAt h3)
    match (definitionAt h3 schema).bind validated with
    | some required =>
      match requiredOk payload required, payload with
      | some true, _ => routeOnHeap h3 schema config
      | some false, some p => (h3, HeapOutcome.rejected (missingMessage required p))
      | _, _ => (h3, HeapOutcome.threw)
    | none => routeOnHeap h3 schema config
  | _ => (h, HeapOutcome.threw)

/-- The outcome as the caller and the transport see it: a dispatched config read from the
heap it was dispatched on. -/
def readOutcome (result : Heap × HeapOutcome) : Outcome :=
  match result.2 with
  | HeapOutcome.rejected message => Outcome.rejected message
  | HeapOutcome.threw => Outcome.threw
  | HeapOutcome.dispatched config =>
    match configAt result.1 config with
    | some cfg => Outcome.dispatched cfg
    | none => Outcome.threw

/-- A sequence of calls of one generated method: before each call the caller creates its data
object (when it passes one). Returns the final heap and what each call ended in. -/
def callSequence (h : Heap) (schema : Nat) : List (Option Obj) → Heap × List Outcome
  | [] => (h, [])
  | data :: later =>
    let h1 := match data with
      | some o => h ++ [Cell.plain o]
      | none => h
    let arg := data.map (fun _ => h.length)
    let result := apiCallOnHeap h1 schema arg
    let tail := callSequence result.1 schema later
    (tail.1, readOutcome result :: tail.2)

/-- The heap `h2` keeps every object of `h1` as it was, and may hold new ones. -/
def Grows (h1 h2 : Heap) : Prop :=
  h1.length ≤ h2.length ∧ ∀ a, a < h1.length → h2[a]? = h1[a]?

/-- The record at address `c` reads as the request config `cfg`. -/
def ConfigIs (h : Heap) (c : Nat) (cfg : Config) : Prop :=
  ∃ r, h[c]? = some (Cell.record r) ∧ readRecord h r = cfg

/-- A heap holding the definition `{url: '/items', data: {defaults: {x: 1}}}` at address 2,
its `data` sub-record at address 1 and its defaults at address 0. -/
def heapDefaultsX1 : Heap :=
  [Cell.plain dataX1, Cell.rules (some 0) none none,
    Cell.record { url := some "/items", data := some 1 }]

/-! # Theorems -/

/-! ## Arrays, objects and the merge -/

theorem arrayIndexOfFrom_nonneg_iff (item : String) (xs : List String) (i : Int) (hi : 0 ≤ i) :
    arrayIndexOfFrom item xs i ≥ 0 ↔ item ∈ xs := by
  induction xs generalizing i with
  | nil => simp [arrayIndexOfFrom]
  | cons x rest ih =>
    by_cases hx : x = item
    · subst hx; simp [arrayIndexOfFrom, hi]
    · have hx' : ¬ item = x := fun e => hx e.symm
      simp only [arrayIndexOfFrom, hx, if_false, List.mem_cons, hx', false_or]
      exact ih (i + 1) (by omega)

theorem arrayIndexOf_nonneg_iff (xs : List String) (item : String) :
    arrayIndexOf xs item ≥ 0 ↔ item ∈ xs :=
  arrayIndexOfFrom_nonneg_iff item xs 0 (le_refl 0)

theorem requiredOk_some (p : Obj) (required : List String) :
    requiredOk (some p) required = some (decide (∀ r ∈ required, r ∈ p.keys)) := by
  induction required with
  | nil => simp [requiredOk]
  | cons item rest ih =>
    by_cases h : item ∈ p.keys
    · have h' : arrayIndexOf p.keys item ≥ 0 := (arrayIndexOf_nonneg_iff _ _).2 h
      simp [requiredOk, h', ih, h]
    · have h' : ¬ arrayIndexOf p.keys item ≥ 0 := fun c => h ((arrayIndexOf_nonneg_iff _ _).1 c)
      simp [requiredOk, h', h]

theorem get_set (o : Obj) (k : String) (v : Val) (k' : String) :
    (o.set k v).get k' = if k' = k then some v else o.get k' := by
  obtain ⟨l, hl⟩ := o
  simp only [Obj.set, Obj.get]
  clear hl
  induction l with
  | nil =>
    by_cases h : k' = k
    · subst h; simp [setEntry, List.lookup]
    · have hb : (k' == k) = false := by simpa using h
      simp [setEntry, List.lookup, h, hb]
  | cons hd tl ih =>
    obtain ⟨a, b⟩ := hd
    by_cases hak : a = k
    · subst hak
      by_cases h : k' = a
      · subst h; simp [setEntry, List.lookup]
      · have hb : (k' == a) = false := by simpa using h
        simp [setEntry, List.lookup, h, hb]
    · by_cases h' : k' = a
      · subst h'
        simp [setEntry, List.lookup, hak]
      · have hb : (k' == a) = false := by simpa using h'
        simp only [setEntry, hak, if_false, List.lookup, hb, ih]

theorem keys_set (o : Obj) (k : String) (v : Val) :
    (o.set k v).keys = if k ∈ o.keys then o.keys else o.keys ++ [k] :=
  keys_setEntry k v o.entries

theorem mem_keys_set (o : Obj) (k : String) (v : Val) (k' : String) :
    k' ∈ (o.set k v).keys ↔ k' ∈ o.keys ∨ k' = k := by
  rw [keys_set]
  split
  · rename_i h
    constructor
    · exact Or.inl
    · rintro (h' | h')
      · exact h'
      · subst h'; exact h
  · simp

theorem lookup_eq_none_of_not_mem (k : String) (l : List (String × Val))
    (h : k ∉ l.map Prod.fst) : l.lookup k = none := by
  induction l with
  | nil => rfl
  | cons hd tl ih =>
    obtain ⟨a, b⟩ := hd
    simp only [List.map_cons, List.mem_cons, not_or] at h
    have hb : (k == a) = false := by simpa using h.1
    simp only [List.lookup, hb]
    exact ih h.2

theorem get_copyInto (target : Obj) (l : List (String × Val)) (hl : (l.map Prod.fst).Nodup)
    (k : String) :
    (copyInto target l).get k = if k ∈ l.map Prod.fst then l.lookup k else target.get k := by
  induction l generalizing target with
  | nil => simp [copyInto]
  | cons hd tl ih =>
    obtain ⟨a, b⟩ := hd
    simp only [List.map_cons, List.nodup_cons] at hl
    simp only [copyInto, ih _ hl.2, get_set, List.map_cons, List.mem_cons]
    by_cases hka : k = a
    · subst hka
      simp [hl.1, List.lookup]
    · have hb : (k == a) = false := by simpa using hka
      by_cases hmem : k ∈ tl.map Prod.fst
      · have hor : k = a ∨ k ∈ tl.map Prod.fst := Or.inr hmem
        simp only [if_pos hmem, if_pos hor, List.lookup, hb]
      · have hor : ¬ (k = a ∨ k ∈ tl.map Prod.fst) := fun c => c.elim hka hmem
        simp only [if_neg hmem, if_neg hor, if_neg hka]

theorem mem_keys_copyInto (target : Obj) (l : List (String × Val)) (k : String) :
    k ∈ (copyInto target l).keys ↔ k ∈ target.keys ∨ k ∈ l.map Prod.fst := by
  induction l generalizing target with
  | nil => simp [copyInto]
  | cons hd tl ih =>
    obtain ⟨a, b⟩ := hd
    simp only [copyInto, ih, mem_keys_set, List.map_cons, List.mem_cons]
    tauto

/-- Reading a key of `extend({}, defaults, data)`: the value of `data` when `data` has the key,
the value of `defaults` otherwise. -/
theorem get_extend_pair (defaults data : Obj) (k : String) :
    (extend Obj.empty [some defaults, some data]).get k =
      if k ∈ data.keys then data.get k else defaults.get k := by
  have hx : extend Obj.empty [some defaults, some data] =
      copyInto (copyInto Obj.empty defaults.entries) data.entries := rfl
  rw [hx, get_copyInto _ _ data.nodup, get_copyInto _ _ defaults.nodup]
  by_cases hd : k ∈ data.entries.map Prod.fst
  · have hd' : k ∈ data.keys := hd
    simp only [if_pos hd, if_pos hd']; rfl
  · have hd' : k ∉ data.keys := hd
    simp only [if_neg hd, if_neg hd']
    by_cases hf : k ∈ defaults.entries.map Prod.fst
    · simp only [if_pos hf]; rfl
    · simp only [if_neg hf]
      have h1 : defaults.get k = none := lookup_eq_none_of_not_mem _ _ hf
      rw [h1]; rfl

/-- The keys of `extend({}, defaults, data)` are those of `defaults` and those of `data`. -/
theorem mem_keys_extend_pair (defaults data : Obj) (k : String) :
    k ∈ (extend Obj.empty [some defaults, some data]).keys ↔
      k ∈ defaults.keys ∨ k ∈ data.keys := by
  have hx : extend Obj.empty [some defaults, some data] =
      copyInto (copyInto Obj.empty defaults.entries) data.entries := rfl
  rw [hx, mem_keys_copyInto, mem_keys_copyInto]
  simp [Obj.keys, Obj.empty]

/-! ## The stages of `apiCall` -/

theorem effectiveData_some (s : Schema) (d : Obj) : ∃ p, effectiveData s (some d) = some p := by
  unfold effectiveData
  split
  · exact ⟨_, rfl⟩
  · exact ⟨d, rfl⟩

theorem validated_eq_some (s : Schema) (required : List String) :
    validated s = some required ↔
      ∃ rules, s.fields.data = some rules ∧ rules.required = some required ∧
        rules.validate ≠ some false := by
  unfold validated
  constructor
  · intro h
    split at h
    · exact absurd h (by simp)
    · rename_i rules hr
      refine ⟨rules, hr, ?_⟩
      split at h
      · rename_i r h1 h2
        simp only [Option.some.injEq] at h
        subst h
        exact ⟨h1, by simp [h2]⟩
      · rename_i r h1 h2
        simp only [Option.some.injEq] at h
        subst h
        exact ⟨h1, by simp [h2]⟩
      · exact absurd h (by simp)
  · rintro ⟨rules, hr, hq, hv⟩
    rw [hr]
    simp only [hq]
    match hval : rules.validate with
    | none => rfl
    | some true => rfl
    | some false => exact absurd hval hv

theorem validated_eq_none_of_validate_false (s : Schema) (rules : DataRules)
    (hr : s.fields.data = some rules) (hv : rules.validate = some false) :
    validated s = none := by
  unfold validated
  rw [hr]
  simp only [hv]
  cases rules.required <;> rfl

/-- With validation switched off or no required list, `apiCall` is the routing stage. -/
theorem apiCall_of_validated_none (s : Schema) (d : Option Obj) (h : validated s = none) :
    apiCall s d = route s (withData (preConfig s d) (effectiveData s d)) := by
  simp only [apiCall, h]

/-- With validation on and a payload that is an object, `apiCall` rejects when a required
name is missing and is the routing stage otherwise. -/
theorem apiCall_of_validated_some (s : Schema) (d : Option Obj) (required : List String)
    (p : Obj) (h : validated s = some required) (hp : effectiveData s d = some p) :
    apiCall s d =
      if ∀ r ∈ required, r ∈ p.keys then route s (withData (preConfig s d) (some p))
      else Outcome.rejected (missingMessage required p) := by
  simp only [apiCall, h, hp, requiredOk_some]
  by_cases hall : ∀ r ∈ required, r ∈ p.keys
  · rw [if_pos hall, decide_eq_true hall]
  · rw [if_neg hall, decide_eq_false hall]

theorem route_ne_rejected (s : Schema) (c : Config) (msg : String) :
    route s c ≠ Outcome.rejected msg := by
  unfold route
  intro h
  split at h
  · split at h <;> exact absurd h (by simp)
  · exact absurd h (by simp)

/-- A rejection comes from the validation block only: validation is on and the payload is an
object lacking a required name. -/
theorem apiCall_rejected (s : Schema) (d : Option Obj) (msg : String)
    (h : apiCall s d = Outcome.rejected msg) :
    ∃ required p, validated s = some required ∧ effectiveData s d = some p ∧
      (¬ ∀ r ∈ required, r ∈ p.keys) ∧ msg = missingMessage required p := by
  match hv : validated s with
  | none =>
    rw [apiCall_of_validated_none s d hv] at h
    exact absurd h (route_ne_rejected _ _ _)
  | some required =>
    match hp : effectiveData s d with
    | none =>
      simp only [apiCall, hv, hp] at h
      split at h
      · exact absurd h (route_ne_rejected _ _ _)
      · rename_i heq
        exact absurd heq (by simp)
      · exact absurd h (by simp)
    | some p =>
      rw [apiCall_of_validated_some s d required p hv hp] at h
      by_cases hall : ∀ r ∈ required, r ∈ p.keys
      · rw [if_pos hall] at h
        exact absurd h (route_ne_rejected _ _ _)
      · rw [if_neg hall] at h
        refine ⟨required, p, rfl, rfl, hall, ?_⟩
        simp only [Outcome.rejected.injEq] at h
        exact h.symm

/-- The validation rule of lines 21-30 on its own: with validation on and a data mapping,
the call is rejected exactly when a required name is not a key of the payload. -/
theorem apiCall_rejected_iff (s : Schema) (d : Obj) (required : List String)
    (hv : validated s = some required) :
    (∃ msg, apiCall s (some d) = Outcome.rejected msg) ↔
      ∃ p, effectiveData s (some d) = some p ∧ ∃ r ∈ required, r ∉ p.keys := by
  constructor
  · rintro ⟨msg, h⟩
    obtain ⟨req, p, h1, h2, h3, _⟩ := apiCall_rejected s (some d) msg h
    rw [hv] at h1
    simp only [Option.some.injEq] at h1
    subst h1
    refine ⟨p, h2, ?_⟩
    push_neg at h3
    exact h3
  · rintro ⟨p, hp, r, hr, hnot⟩
    refine ⟨missingMessage required p, ?_⟩
    rw [apiCall_of_validated_some s (some d) required p hv hp]
    rw [if_neg (fun hall => hnot (hall r hr))]

/-- Every dispatch goes through the routing stage, on the config of line 19. -/
theorem apiCall_dispatched (s : Schema) (d : Option Obj) (cfg : Config)
    (h : apiCall s d = Outcome.dispatched cfg) :
    route s (withData (preConfig s d) (effectiveData s d)) = Outcome.dispatched cfg := by
  match hv : validated s with
  | none => rw [apiCall_of_validated_none s d hv] at h; exact h
  | some required =>
    match hp : effectiveData s d with
    | none =>
      simp only [apiCall, hv, hp] at h
      split at h
      · exact h
      · exact absurd h (by simp)
      · exact absurd h (by simp)
    | some p =>
      rw [apiCall_of_validated_some s d required p hv hp] at h
      by_cases hall : ∀ r ∈ required, r ∈ p.keys
      · rw [if_pos hall] at h; exact h
      · rw [if_neg hall] at h; exact absurd h (by simp)

/-- With a data mapping, `apiCall` raises only in the routing stage. -/
theorem apiCall_threw (s : Schema) (d : Obj) (h : apiCall s (some d) = Outcome.threw) :
    route s (withData (preConfig s (some d)) (effectiveData s (some d))) = Outcome.threw := by
  match hv : validated s with
  | none => rw [apiCall_of_validated_none s _ hv] at h; exact h
  | some required =>
    obtain ⟨p, hp⟩ := effectiveData_some s d
    rw [apiCall_of_validated_some s _ required p hv hp] at h
    by_cases hall : ∀ r ∈ required, r ∈ p.keys
    · rw [if_pos hall] at h; rw [hp]; exact h
    · rw [if_neg hall] at h; exact absurd h (by simp)

/-- What the routing stage hands to the transport. -/
theorem route_dispatched (s : Schema) (c cfg : Config) (h : route s c = Outcome.dispatched cfg) :
    (s.fields.headers = none ∧
      cfg = { routeQuery s c with body := (routeQuery s c).data, json := some true }) ∨
    (∃ headers ct, s.fields.headers = some headers ∧ contentType headers = some (Val.str ct) ∧
      cfg = routeByContentType ct (routeQuery s c)) := by
  unfold route at h
  split at h
  · rename_i headers hh
    split at h
    · rename_i ct hct
      simp only [Outcome.dispatched.injEq] at h
      exact Or.inr ⟨headers, ct, hh, hct, h.symm⟩
    · exact absurd h (by simp)
  · rename_i hh
    simp only [Outcome.dispatched.injEq] at h
    exact Or.inl ⟨hh, h.symm⟩

/-- The routing stage raises exactly when headers are present and the content type read from
them is not a string. -/
theorem route_threw_iff (s : Schema) (c : Config) :
    route s c = Outcome.threw ↔
      ∃ headers, s.fields.headers = some headers ∧
        ∀ ct, contentType headers ≠ some (Val.str ct) := by
  unfold route
  constructor
  · intro h
    split at h
    · rename_i headers hh
      refine ⟨headers, hh, ?_⟩
      intro ct hct
      rw [hct] at h
      exact absurd h (by simp)
    · exact absurd h (by simp)
  · rintro ⟨headers, hh, hct⟩
    rw [hh]
    show (match contentType headers with
      | some (Val.str ct) => Outcome.dispatched (routeByContentType ct (routeQuery s c))
      | _ => Outcome.threw) = Outcome.threw
    split
    · rename_i ct h
      exact absurd h (hct ct)
    · rfl

@[simp] theorem routeQuery_data (s : Schema) (c : Config) : (routeQuery s c).data = c.data := by
  unfold routeQuery; split <;> rfl

@[simp] theorem routeQuery_qs (s : Schema) (c : Config) :
    (routeQuery s c).qs = if isGet s then c.data else c.qs := by
  unfold routeQuery; split <;> rfl

@[simp] theorem routeQuery_form (s : Schema) (c : Config) : (routeQuery s c).form = c.form := by
  unfold routeQuery; split <;> rfl

@[simp] theorem routeQuery_formData (s : Schema) (c : Config) :
    (routeQuery s c).formData = c.formData := by
  unfold routeQuery; split <;> rfl

@[simp] theorem routeQuery_body (s : Schema) (c : Config) : (routeQuery s c).body = c.body := by
  unfold routeQuery; split <;> rfl

@[simp] theorem routeQuery_json (s : Schema) (c : Config) : (routeQuery s c).json = c.json := by
  unfold routeQuery; split <;> rfl

@[simp] theorem routeByContentType_data (ct : String) (c : Config) :
    (routeByContentType ct c).data = c.data := by
  simp only [routeByContentType]; split_ifs <;> rfl

@[simp] theorem routeByContentType_qs (ct : String) (c : Config) :
    (routeByContentType ct c).qs = c.qs := by
  simp only [routeByContentType]; split_ifs <;> rfl

@[simp] theorem routeByContentType_form (ct : String) (c : Config) :
    (routeByContentType ct c).form =
      if indexOf ct "application/x-www-form-urlencoded" ≥ 0 then c.data else c.form := by
  simp only [routeByContentType]; split_ifs <;> rfl

@[simp] theorem routeByContentType_formData (ct : String) (c : Config) :
    (routeByContentType ct c).formData =
      if indexOf ct "multipart/form-data" ≥ 0 then c.data else c.formData := by
  simp only [routeByContentType]; split_ifs <;> rfl

@[simp] theorem routeByContentType_body (ct : String) (c : Config) :
    (routeByContentType ct c).body =
      if indexOf ct "application/json" ≥ 0 then c.data else c.body := by
  simp only [routeByContentType]; split_ifs <;> rfl

@[simp] theorem routeByContentType_json (ct : String) (c : Config) :
    (routeByContentType ct c).json =
      if indexOf ct "application/json" ≥ 0 then some true else c.json := by
  simp only [routeByContentType]; split_ifs <;> rfl

/-- Routing never changes `config.data`. -/
theorem route_dispatched_data (s : Schema) (c cfg : Config)
    (h : route s c = Outcome.dispatched cfg) : cfg.data = c.data := by
  rcases route_dispatched s c cfg h with ⟨_, rfl⟩ | ⟨_, _, _, _, rfl⟩ <;> simp

/-! ## Required-field validation -/

/-- C1 (code defect): for `{method: 'post', headers: {Authorization: 'Bearer t'},
data: {required: ['a']}}` called with `{a: 1}`, validation is on, the payload is the call-time
data and holds every required name, yet the call neither rejects nor reaches the transport:
line 42 reads `indexOf` of an `undefined` content type and raises. -/
theorem apiCall_valid_payload_raises_without_content_type :
    validated tokenOnly = some ["a"] ∧
      effectiveData tokenOnly (some dataA) = some dataA ∧
      (∀ r ∈ ["a"], r ∈ dataA.keys) ∧
      apiCall tokenOnly (some dataA) = Outcome.threw := by
  decide

/-- C2: whenever `apiCall` rejects, the definition has a required list, the payload is an
object, and the rejection value is the string
`'Missing some of the following required parameters: '`, the whole required list joined with
`', '`, `' :: Current parameters :: '`, and the keys of the payload joined with `', '`. -/
theorem apiCall_rejection_message (s : Schema) (d : Option Obj) (msg : String)
    (h : apiCall s d = Outcome.rejected msg) :
    ∃ rules required p, s.fields.data = some rules ∧ rules.required = some required ∧
      effectiveData s d = some p ∧
      msg = "Missing some of the following required parameters: " ++
        ", ".intercalate required ++ " :: Current parameters :: " ++
        ", ".intercalate p.keys := by
  obtain ⟨required, p, hv, hp, _, hmsg⟩ := apiCall_rejected s d msg h
  obtain ⟨rules, hr, hq, _⟩ := (validated_eq_some s required).1 hv
  exact ⟨rules, required, p, hr, hq, hp, hmsg⟩

/-- Witness for C2: `{data: {required: ['a', 'b']}}` called with `{a: 1}`. -/
theorem apiCall_rejection_message_witness :
    apiCall needsAB (some dataA) = Outcome.rejected
        "Missing some of the following required parameters: a, b :: Current parameters :: a" ∧
      ∃ rules required p, needsAB.fields.data = some rules ∧ rules.required = some required ∧
        effectiveData needsAB (some dataA) = some p ∧
        "Missing some of the following required parameters: a, b :: Current parameters :: a" =
          "Missing some of the following required parameters: " ++
            ", ".intercalate required ++ " :: Current parameters :: " ++
            ", ".intercalate p.keys :=
  ⟨by decide, apiCall_rejection_message needsAB (some dataA) _ (by decide)⟩

/-- C3: with `data.validate = false`, whatever the required list and the call-time data,
`apiCall` never returns a rejection; the config is built with the payload as its `data` and
dispatched, unless the header inspection of line 42 raises. -/
theorem apiCall_validate_false_never_rejects (s : Schema) (d : Option Obj) (rules : DataRules)
    (hr : s.fields.data = some rules) (hv : rules.validate = some false) :
    (∀ msg, apiCall s d ≠ Outcome.rejected msg) ∧
      ((∃ cfg, apiCall s d = Outcome.dispatched cfg ∧ cfg.data = effectiveData s d) ∨
        (apiCall s d = Outcome.threw ∧
          ∃ headers, s.fields.headers = some headers ∧
            ∀ ct, contentType headers ≠ some (Val.str ct))) := by
  have hnone := validated_eq_none_of_validate_false s rules hr hv
  rw [apiCall_of_validated_none s d hnone]
  refine ⟨fun msg => route_ne_rejected _ _ msg, ?_⟩
  match hroute : route s (withData (preConfig s d) (effectiveData s d)) with
  | Outcome.rejected msg => exact absurd hroute (route_ne_rejected _ _ msg)
  | Outcome.dispatched cfg =>
    exact Or.inl ⟨cfg, rfl, route_dispatched_data s _ cfg hroute⟩
  | Outcome.threw => exact Or.inr ⟨rfl, (route_threw_iff s _).1 hroute⟩

/-- Witness for C3: `{data: {required: ['a', 'b'], validate: false}}` called with `{}` is
dispatched with the empty payload. -/
theorem apiCall_validate_false_never_rejects_witness :
    needsABUnchecked.fields.data = some rulesABUnchecked ∧
      rulesABUnchecked.validate = some false ∧
      (∃ cfg, apiCall needsABUnchecked (some Obj.empty) = Outcome.dispatched cfg ∧
        cfg.data = some Obj.empty) ∧
      (∀ msg, apiCall needsABUnchecked (some Obj.empty) ≠ Outcome.rejected msg) :=
  ⟨rfl, rfl,
    ⟨{ url := some "/items", data := some Obj.empty, qs := some Obj.empty,
        body := some Obj.empty, json := some true }, by decide, by decide⟩,
    (apiCall_validate_false_never_rejects needsABUnchecked (some Obj.empty) rulesABUnchecked
      rfl rfl).1⟩

/-! ## The effective payload -/

/-- C4: the `data` of every dispatched config is the effective payload. With defaults, the
payload reads every key from the call-time data when that has the key and from the defaults
otherwise, and its keys are those of the defaults and of the call-time data; without defaults
it is the call-time data. -/
theorem config_data_right_biased_merge (s : Schema) (d : Obj) :
    (∀ cfg, apiCall s (some d) = Outcome.dispatched cfg →
      cfg.data = effectiveData s (some d)) ∧
    (∀ rules defaults, s.fields.data = some rules → rules.defaults = some defaults →
      ∃ p, effectiveData s (some d) = some p ∧
        (∀ k, p.get k = if k ∈ d.keys then d.get k else defaults.get k) ∧
        (∀ k, k ∈ p.keys ↔ k ∈ defaults.keys ∨ k ∈ d.keys)) ∧
    ((s.fields.data = none ∨ ∃ rules, s.fields.data = some rules ∧ rules.defaults = none) →
      effectiveData s (some d) = some d) := by
  refine ⟨?_, ?_, ?_⟩
  · intro cfg h
    exact route_dispatched_data s _ cfg (apiCall_dispatched s _ cfg h)
  · intro rules defaults hr hd
    refine ⟨extend Obj.empty [some defaults, some d], ?_, get_extend_pair defaults d,
      mem_keys_extend_pair defaults d⟩
    simp only [effectiveData, defaultsOf, hr, hd]
  · rintro (hr | ⟨rules, hr, hd⟩)
    · simp only [effectiveData, defaultsOf, hr]
    · simp only [effectiveData, defaultsOf, hr, hd]

/-- Witness for C4: defaults `{x: 1}` with data `{x: 2}` give `x = 2`, and with data `{}`
give `x = 1`. -/
theorem config_data_right_biased_merge_witness :
    (∃ p, effectiveData defaultsX1 (some dataX2) = some p ∧ p.get "x" = some (Val.num 2)) ∧
      (∃ p, effectiveData defaultsX1 (some Obj.empty) = some p ∧
        p.get "x" = some (Val.num 1)) := by
  obtain ⟨p, hp, hget, _⟩ :=
    (config_data_right_biased_merge defaultsX1 dataX2).2.1 rulesX1 dataX1 rfl rfl
  obtain ⟨q, hq, hgetq, _⟩ :=
    (config_data_right_biased_merge defaultsX1 Obj.empty).2.1 rulesX1 dataX1 rfl rfl
  refine ⟨⟨p, hp, ?_⟩, ⟨q, hq, ?_⟩⟩
  · rw [hget "x"]; decide
  · rw [hgetq "x"]; decide

/-! ## Channel selection -/

/-- The defect behind C1 and C5 in general: when no header name lower-cases to `content-type`
(and the headers have no property called `undefined`), no call is ever dispatched. -/
theorem apiCall_not_dispatched_without_content_type (s : Schema) (d : Option Obj)
    (headers : Obj) (hh : s.fields.headers = some headers)
    (hk : ∀ k ∈ headers.keys, toLowerCase k ≠ "content-type")
    (hu : headers.get "undefined" = none) (cfg : Config) :
    apiCall s d ≠ Outcome.dispatched cfg := by
  intro h
  have hkey : contentTypeKey headers = none := by
    unfold contentTypeKey
    rw [List.find?_eq_none]
    intro k hmem
    simpa using hk k hmem
  have hct : contentType headers = none := by
    unfold contentType
    rw [hkey]
    exact hu
  rcases route_dispatched s _ cfg (apiCall_dispatched s d cfg h) with
    ⟨hnone, _⟩ | ⟨headers2, ct, hh2, hct2, _⟩
  · rw [hh] at hnone; exact absurd hnone (by simp)
  · rw [hh] at hh2
    simp only [Option.some.injEq] at hh2
    subst hh2
    rw [hct] at hct2
    exact absurd hct2 (by simp)

/-- C5 (code defect): for `{method: 'post', headers: {Accept: 'application/json'}}` called
with `{a: 1}`, no header name lower-cases to `content-type`, the content type read on line 41
is `undefined`, and the call raises on line 42 instead of dispatching the config. -/
theorem apiCall_headers_without_content_type_raises :
    (∃ headers, acceptOnly.fields.headers = some headers ∧
        (∀ k ∈ headers.keys, toLowerCase k ≠ "content-type") ∧
        contentTypeKey headers = none ∧ contentType headers = none) ∧
      apiCall acceptOnly (some dataA) = Outcome.threw := by
  refine ⟨⟨_, rfl, ?_, ?_, ?_⟩, ?_⟩ <;> decide

theorem isGet_of_method (s : Schema)
    (hm : s.fields.method = none ∨ ∃ m, s.fields.method = some m ∧ toLowerCase m = "get") :
    isGet s = true := by
  unfold isGet
  rcases hm with hm | ⟨m, hm, hget⟩
  · rw [hm]
  · rw [hm]; simp [hget]

theorem contentType_of_key (headers : Obj) (k : String)
    (hk : contentTypeKey headers = some k) : contentType headers = headers.get k := by
  unfold contentType
  rw [hk]

/-- With a data mapping and a content type that is a string (or no headers), `apiCall` does
not raise. -/
theorem apiCall_ne_threw (s : Schema) (d : Obj)
    (hct : ∀ headers, s.fields.headers = some headers →
      ∃ ct, contentType headers = some (Val.str ct)) :
    apiCall s (some d) ≠ Outcome.threw := by
  intro h
  obtain ⟨headers, hh, hno⟩ := (route_threw_iff s _).1 (apiCall_threw s d h)
  obtain ⟨ct, hct'⟩ := hct headers hh
  exact hno ct hct'

theorem contentTypeContains_of_headers_none (s : Schema) (marker : String)
    (hh : s.fields.headers = none) : contentTypeContains s marker = false := by
  unfold contentTypeContains
  rw [hh]

theorem contentTypeContains_of_contentType (s : Schema) (marker : String) (headers : Obj)
    (ct : String) (hh : s.fields.headers = some headers)
    (hct : contentType headers = some (Val.str ct)) :
    contentTypeContains s marker = decide (indexOf ct marker ≥ 0) := by
  unfold contentTypeContains
  rw [hh]
  simp only [hct]

theorem populatedCount_eq (c : Config) :
    populatedCount c =
      c.qs.isSome.toNat + c.form.isSome.toNat + c.formData.isSome.toNat + c.body.isSome.toNat := by
  unfold populatedCount channels
  cases c.qs <;> cases c.form <;> cases c.formData <;> cases c.body <;> rfl

/-- C6 (as stated, refuted): `{url: '/items'}` called with `{a: 1}` is dispatched with both
`qs` and `body` populated, and `{method: 'post', headers: {'Content-Type': 'text/plain'}}`
called with `{a: 1}` is dispatched with no channel populated. -/
theorem channels_not_exactly_one :
    (∃ cfg, apiCall bare (some dataA) = Outcome.dispatched cfg ∧ cfg.qs = some dataA ∧
        cfg.body = some dataA ∧ populatedCount cfg = 2) ∧
      (∃ cfg, apiCall postText (some dataA) = Outcome.dispatched cfg ∧
        populatedCount cfg = 0) :=
  ⟨⟨{ url := some "/items", data := some dataA, qs := some dataA, body := some dataA,
        json := some true }, by decide, by decide, by decide, by decide⟩,
    ⟨{ method := some "post", url := some "/items", headers := some headersText,
        data := some dataA }, by decide, by decide⟩⟩

/-- C6 (amended): for a dispatched request whose channels were not set by the definition or
its hook, each channel is populated exactly when its own rule applies, and then with the
effective payload: `qs` when the method is absent, empty or `get`; `form`, `formData` and
`body` when the content type contains the matching marker; `body` also when there are no
headers. The number of populated channels is the number of rules that apply. -/
theorem channels_follow_rules (s : Schema) (d : Obj) (cfg : Config)
    (hqs : (preConfig s (some d)).qs = none) (hform : (preConfig s (some d)).form = none)
    (hformData : (preConfig s (some d)).formData = none)
    (hbody : (preConfig s (some d)).body = none)
    (h : apiCall s (some d) = Outcome.dispatched cfg) :
    ∃ p, effectiveData s (some d) = some p ∧
      cfg.qs = (if isGet s then some p else none) ∧
      cfg.form =
        (if contentTypeContains s "application/x-www-form-urlencoded" then some p else none) ∧
      cfg.formData = (if contentTypeContains s "multipart/form-data" then some p else none) ∧
      cfg.body =
        (if s.fields.headers = none ∨ contentTypeContains s "application/json" = true
          then some p else none) ∧
      populatedCount cfg =
        (isGet s).toNat +
          (contentTypeContains s "application/x-www-form-urlencoded").toNat +
          (contentTypeContains s "multipart/form-data").toNat +
          (decide (s.fields.headers = none) ||
            contentTypeContains s "application/json").toNat := by
  obtain ⟨p, hp⟩ := effectiveData_some s d
  refine ⟨p, hp, ?_⟩
  have hr := apiCall_dispatched s _ cfg h
  rw [hp] at hr
  rw [populatedCount_eq]
  rcases route_dispatched s _ cfg hr with ⟨hh, rfl⟩ | ⟨headers, ct, hh, hct, rfl⟩
  · simp only [contentTypeContains_of_headers_none s _ hh, hh, routeQuery_qs, routeQuery_form,
      routeQuery_formData, routeQuery_data, withData, hqs, hform, hformData]
    cases isGet s <;> simp
  · have hne : s.fields.headers ≠ none := by rw [hh]; simp
    simp only [contentTypeContains_of_contentType s _ headers ct hh hct, hne,
      routeByContentType_qs, routeByContentType_form, routeByContentType_formData,
      routeByContentType_body, routeQuery_qs, routeQuery_form, routeQuery_formData,
      routeQuery_body, routeQuery_data, withData, hqs, hform, hformData, hbody]
    cases isGet s <;>
      by_cases h1 : indexOf ct "application/x-www-form-urlencoded" ≥ 0 <;>
      by_cases h2 : indexOf ct "multipart/form-data" ≥ 0 <;>
      by_cases h3 : indexOf ct "application/json" ≥ 0 <;>
      simp [h1, h2, h3]

/-- Witness for C6 (amended): `{url: '/items'}` called with `{a: 1}`; two rules apply and two
channels are populated. -/
theorem channels_follow_rules_witness :
    apiCall bare (some dataA) = Outcome.dispatched
        { url := some "/items", data := some dataA, qs := some dataA, body := some dataA,
          json := some true } ∧
      ∃ p, effectiveData bare (some dataA) = some p ∧
        (some dataA : Option Obj) = (if isGet bare then some p else none) ∧
        (none : Option Obj) =
          (if contentTypeContains bare "application/x-www-form-urlencoded"
            then some p else none) ∧
        (none : Option Obj) =
          (if contentTypeContains bare "multipart/form-data" then some p else none) ∧
        (some dataA : Option Obj) =
          (if bare.fields.headers = none ∨ contentTypeContains bare "application/json" = true
            then some p else none) ∧
        2 = (isGet bare).toNat +
            (contentTypeContains bare "application/x-www-form-urlencoded").toNat +
            (contentTypeContains bare "multipart/form-data").toNat +
            (decide (bare.fields.headers = none) ||
              contentTypeContains bare "application/json").toNat :=
  ⟨by decide,
    channels_follow_rules bare dataA
      { url := some "/items", data := some dataA, qs := some dataA, body := some dataA,
        json := some true } rfl rfl rfl rfl (by decide)⟩

/-- C7: when the method is absent or lower-cases to `get`, every dispatched config has `qs`
equal to the effective payload, whatever the headers are. -/
theorem get_places_payload_in_qs (s : Schema) (d : Option Obj) (cfg : Config)
    (hm : s.fields.method = none ∨ ∃ m, s.fields.method = some m ∧ toLowerCase m = "get")
    (h : apiCall s d = Outcome.dispatched cfg) :
    cfg.qs = effectiveData s d := by
  have hr := apiCall_dispatched s d cfg h
  have hg := isGet_of_method s hm
  rcases route_dispatched s _ cfg hr with ⟨_, rfl⟩ | ⟨_, _, _, _, rfl⟩ <;>
    simp [hg, withData]

/-- Witness for C7: `{method: 'GET', headers: {'Content-Type': 'multipart/form-data'}}`
called with `{a: 1}` is dispatched with `qs = {a: 1}`. -/
theorem get_places_payload_in_qs_witness :
    (getMultipart.fields.method = none ∨
        ∃ m, getMultipart.fields.method = some m ∧ toLowerCase m = "get") ∧
      apiCall getMultipart (some dataA) = Outcome.dispatched
        { method := some "GET", url := some "/items", headers := some headersMultipart,
          data := some dataA, qs := some dataA, formData := some dataA } ∧
      some dataA = effectiveData getMultipart (some dataA) :=
  ⟨Or.inr ⟨"GET", rfl, by decide⟩, by decide,
    get_places_payload_in_qs getMultipart (some dataA)
      { method := some "GET", url := some "/items", headers := some headersMultipart,
        data := some dataA, qs := some dataA, formData := some dataA }
      (Or.inr ⟨"GET", rfl, by decide⟩) (by decide)⟩

/-- C10: with no `headers` field, every dispatched config has `body` equal to the effective
payload and `json = true`, and its `form` and `formData` are as the definition and its hook
left them; with a data mapping the call does not raise, so it is dispatched unless validation
rejects it. -/
theorem no_headers_defaults_to_json_body (s : Schema) (d : Option Obj)
    (hh : s.fields.headers = none) :
    (∀ cfg, apiCall s d = Outcome.dispatched cfg →
      cfg.body = effectiveData s d ∧ cfg.json = some true ∧
        cfg.form = (preConfig s d).form ∧ cfg.formData = (preConfig s d).formData) ∧
    (∀ dat, d = some dat → apiCall s d ≠ Outcome.threw) := by
  constructor
  · intro cfg h
    have hr := apiCall_dispatched s d cfg h
    rcases route_dispatched s _ cfg hr with ⟨_, rfl⟩ | ⟨headers, _, hsome, _, _⟩
    · simp [withData]
    · rw [hh] at hsome; exact absurd hsome (by simp)
  · rintro dat rfl
    apply apiCall_ne_threw
    intro headers hsome
    rw [hh] at hsome
    exact absurd hsome (by simp)

/-- Witness for C10: `{url: '/items'}` called with `{a: 1}`. -/
theorem no_headers_defaults_to_json_body_witness :
    apiCall bare (some dataA) = Outcome.dispatched
        { url := some "/items", data := some dataA, qs := some dataA, body := some dataA,
          json := some true } ∧
      (∀ cfg, apiCall bare (some dataA) = Outcome.dispatched cfg →
        cfg.body = effectiveData bare (some dataA) ∧ cfg.json = some true ∧
          cfg.form = (preConfig bare (some dataA)).form ∧
          cfg.formData = (preConfig bare (some dataA)).formData) ∧
      (∀ dat, some dataA = some dat → apiCall bare (some dataA) ≠ Outcome.threw) :=
  ⟨by decide, no_headers_defaults_to_json_body bare (some dataA) rfl⟩

/-! ## The fields of a dispatched config -/

@[simp] theorem routeQuery_method (s : Schema) (c : Config) :
    (routeQuery s c).method = c.method := by
  unfold routeQuery; split <;> rfl

@[simp] theorem routeQuery_url (s : Schema) (c : Config) : (routeQuery s c).url = c.url := by
  unfold routeQuery; split <;> rfl

@[simp] theorem routeQuery_headers (s : Schema) (c : Config) :
    (routeQuery s c).headers = c.headers := by
  unfold routeQuery; split <;> rfl

@[simp] theorem routeQuery_rest (s : Schema) (c : Config) : (routeQuery s c).rest = c.rest := by
  unfold routeQuery; split <;> rfl

@[simp] theorem routeByContentType_method (ct : String) (c : Config) :
    (routeByContentType ct c).method = c.method := by
  simp only [routeByContentType]; split_ifs <;> rfl

@[simp] theorem routeByContentType_url (ct : String) (c : Config) :
    (routeByContentType ct c).url = c.url := by
  simp only [routeByContentType]; split_ifs <;> rfl

@[simp] theorem routeByContentType_headers (ct : String) (c : Config) :
    (routeByContentType ct c).headers = c.headers := by
  simp only [routeByContentType]; split_ifs <;> rfl

@[simp] theorem routeByContentType_rest (ct : String) (c : Config) :
    (routeByContentType ct c).rest = c.rest := by
  simp only [routeByContentType]; split_ifs <;> rfl

/-- Every field of a dispatched config: `method`, `url`, `headers` and the other fields are as
the copy of the definition (and its hook) left them, `data` is the payload of line 19, and each
channel holds the payload when its rule applies and is untouched otherwise. -/
theorem apiCall_dispatched_fields (s : Schema) (d : Option Obj) (cfg : Config)
    (h : apiCall s d = Outcome.dispatched cfg) :
    cfg.method = (preConfig s d).method ∧ cfg.url = (preConfig s d).url ∧
      cfg.headers = (preConfig s d).headers ∧ cfg.rest = (preConfig s d).rest ∧
      cfg.data = effectiveData s d ∧
      cfg.qs = (if isGet s then effectiveData s d else (preConfig s d).qs) ∧
      cfg.form = (if contentTypeContains s "application/x-www-form-urlencoded"
        then effectiveData s d else (preConfig s d).form) ∧
      cfg.formData = (if contentTypeContains s "multipart/form-data"
        then effectiveData s d else (preConfig s d).formData) ∧
      cfg.body = (if s.fields.headers = none ∨ contentTypeContains s "application/json" = true
        then effectiveData s d else (preConfig s d).body) ∧
      cfg.json = (if s.fields.headers = none ∨ contentTypeContains s "application/json" = true
        then some true else (preConfig s d).json) := by
  have hr := apiCall_dispatched s d cfg h
  rcases route_dispatched s _ cfg hr with ⟨hh, rfl⟩ | ⟨headers, ct, hh, hct, rfl⟩
  · simp only [contentTypeContains_of_headers_none s _ hh, hh, routeQuery_qs, routeQuery_form,
      routeQuery_formData, routeQuery_data, routeQuery_method, routeQuery_url,
      routeQuery_headers, routeQuery_rest]
    simp [withData]
  · have hne : s.fields.headers ≠ none := by rw [hh]; simp
    simp only [contentTypeContains_of_contentType s _ headers ct hh hct, hne,
      routeByContentType_qs, routeByContentType_form, routeByContentType_formData,
      routeByContentType_body, routeByContentType_json, routeByContentType_data,
      routeByContentType_method, routeByContentType_url, routeByContentType_headers,
      routeByContentType_rest, routeQuery_qs, routeQuery_form, routeQuery_formData,
      routeQuery_body, routeQuery_json, routeQuery_data, routeQuery_method, routeQuery_url,
      routeQuery_headers, routeQuery_rest]
    simp [withData]

/-! ## The optional data argument -/

/-- Without a data argument and without defaults the payload is `undefined`, and the first
required name makes line 24 apply `Object.keys` to it: the call raises. -/
theorem apiCall_no_data_raises (s : Schema) (required : List String)
    (hv : validated s = some required) (hne : required ≠ []) (hd : defaultsOf s = none) :
    apiCall s none = Outcome.threw := by
  have hp : effectiveData s none = none := by simp only [effectiveData, hd]
  cases required with
  | nil => exact absurd rfl hne
  | cons item rest => simp only [apiCall, hv, hp, requiredOk]

/-- C15 (code defect): `{url: '/items', data: {required: ['a']}}` has validation on, a
non-empty required list and no defaults. Invoked without a data argument the payload is
`undefined` and the call raises on line 24 (`Object.keys(undefined)`) instead of returning the
rejection; invoked with `{}` it does return the rejection. -/
theorem apiCall_without_data_raises :
    validated needsA = some ["a"] ∧ defaultsOf needsA = none ∧
      effectiveData needsA none = none ∧
      apiCall needsA none = Outcome.threw ∧
      apiCall needsA (some Obj.empty) = Outcome.rejected
        "Missing some of the following required parameters: a :: Current parameters :: " := by
  decide

/-! ## Defaults and validation -/

theorem mem_keys_extend_of_defaults (defaults : Obj) (d : Option Obj) (k : String)
    (hk : k ∈ defaults.keys) : k ∈ (extend Obj.empty [some defaults, d]).keys := by
  cases d with
  | none =>
    have hx : extend Obj.empty [some defaults, none] = copyInto Obj.empty defaults.entries := rfl
    rw [hx, mem_keys_copyInto]
    exact Or.inr hk
  | some data => exact (mem_keys_extend_pair defaults data k).2 (Or.inl hk)

/-- C17: when every required name is a key of `data.defaults`, the payload checked by the
validation block holds every required name whatever the call-time data is (a mapping, the
empty mapping, or no argument), and `apiCall` never returns the rejection. -/
theorem defaults_satisfy_required (s : Schema) (d : Option Obj) (rules : DataRules)
    (defaults : Obj) (required : List String) (hr : s.fields.data = some rules)
    (hdf : rules.defaults = some defaults) (hreq : rules.required = some required)
    (hall : ∀ r ∈ required, r ∈ defaults.keys) :
    (∃ p, effectiveData s d = some p ∧ ∀ r ∈ required, r ∈ p.keys) ∧
      ∀ msg, apiCall s d ≠ Outcome.rejected msg := by
  have hp : effectiveData s d = some (extend Obj.empty [some defaults, d]) := by
    simp only [effectiveData, defaultsOf, hr, hdf]
  have hkeys : ∀ r ∈ required, r ∈ (extend Obj.empty [some defaults, d]).keys :=
    fun r hmem => mem_keys_extend_of_defaults defaults d r (hall r hmem)
  refine ⟨⟨_, hp, hkeys⟩, ?_⟩
  intro msg h
  obtain ⟨req, p, hv, hp2, hnot, _⟩ := apiCall_rejected s d msg h
  obtain ⟨rules2, hr2, hreq2, _⟩ := (validated_eq_some s req).1 hv
  rw [hr] at hr2
  simp only [Option.some.injEq] at hr2
  subst hr2
  rw [hreq] at hreq2
  simp only [Option.some.injEq] at hreq2
  subst hreq2
  rw [hp] at hp2
  simp only [Option.some.injEq] at hp2
  subst hp2
  exact hnot hkeys

/-- Witness for C17: `{data: {defaults: {a: 1}, required: ['a']}}` called with `{}` is
dispatched, not rejected. -/
theorem defaults_satisfy_required_witness :
    apiCall defaultsCoverRequired (some Obj.empty) = Outcome.dispatched
        { url := some "/items", data := some dataA, qs := some dataA, body := some dataA,
          json := some true } ∧
      (∃ p, effectiveData defaultsCoverRequired (some Obj.empty) = some p ∧
        ∀ r ∈ ["a"], r ∈ p.keys) ∧
      ∀ msg, apiCall defaultsCoverRequired (some Obj.empty) ≠ Outcome.rejected msg :=
  ⟨by decide,
    defaults_satisfy_required defaultsCoverRequired (some Obj.empty) rulesDefaultA dataA ["a"]
      rfl rfl rfl (by decide)⟩

/-! ## The hook and the builder's writes -/

/-- C18: for a definition without a hook, the `data` of every dispatched config is the
effective payload; each of `qs`, `form`, `formData` and `body` holds that payload when the
builder's rule for it applies and is the definition's own field otherwise; and `json` is set
to `true` exactly under the rule that sets `body`, and is the definition's own field
otherwise. -/
theorem builder_places_only_the_payload (s : Schema) (d : Option Obj) (cfg : Config)
    (hhook : s.extendConfig = none) (h : apiCall s d = Outcome.dispatched cfg) :
    cfg.data = effectiveData s d ∧
      cfg.qs = (if isGet s then effectiveData s d else s.fields.qs) ∧
      cfg.form = (if contentTypeContains s "application/x-www-form-urlencoded"
        then effectiveData s d else s.fields.form) ∧
      cfg.formData = (if contentTypeContains s "multipart/form-data"
        then effectiveData s d else s.fields.formData) ∧
      cfg.body = (if s.fields.headers = none ∨ contentTypeContains s "application/json" = true
        then effectiveData s d else s.fields.body) ∧
      cfg.json = (if s.fields.headers = none ∨ contentTypeContains s "application/json" = true
        then some true else s.fields.json) := by
  have hpre : preConfig s d = s.fields := by simp only [preConfig, hhook]
  have hf := apiCall_dispatched_fields s d cfg h
  rw [hpre] at hf
  exact hf.2.2.2.2

/-- Witness for C18: `{method: 'GET', headers: {'Content-Type': 'multipart/form-data'}}`
called with `{a: 1}`: `data`, `qs` and `formData` hold `{a: 1}`, `body` and `json` are not
set. -/
theorem builder_places_only_the_payload_witness :
    apiCall getMultipart (some dataA) = Outcome.dispatched
        { method := some "GET", url := some "/items", headers := some headersMultipart,
          data := some dataA, qs := some dataA, formData := some dataA } ∧
      (some dataA : Option Obj) = effectiveData getMultipart (some dataA) ∧
      (some dataA : Option Obj) =
        (if isGet getMultipart then effectiveData getMultipart (some dataA)
          else getMultipart.fields.qs) :=
  have hw := builder_places_only_the_payload getMultipart (some dataA)
    { method := some "GET", url := some "/items", headers := some headersMultipart,
      data := some dataA, qs := some dataA, formData := some dataA } rfl (by decide)
  ⟨by decide, hw.1, hw.2.1⟩

/-! ## The content-type lookup -/

theorem find_append_of_first (p : String → Bool) (pre post : List String) (k : String)
    (hpre : ∀ x ∈ pre, p x = false) (hk : p k = true) :
    (pre ++ k :: post).find? p = some k := by
  induction pre with
  | nil => simp [List.find?, hk]
  | cons x rest ih =>
    have hx : p x = false := hpre x (List.mem_cons_self x rest)
    simp only [List.cons_append, List.find?, hx]
    exact ih (fun y hy => hpre y (List.mem_cons_of_mem x hy))

theorem lookup_append_of_first (pre post : List (String × Val)) (k : String) (v : Val)
    (hpre : ∀ e ∈ pre, e.1 ≠ k) : (pre ++ (k, v) :: post).lookup k = some v := by
  induction pre with
  | nil => simp [List.lookup]
  | cons e rest ih =>
    obtain ⟨a, b⟩ := e
    have ha : a ≠ k := hpre (a, b) (List.mem_cons_self _ rest)
    have hb : (k == a) = false := by simpa using fun c : k = a => ha c.symm
    simp only [List.cons_append, List.lookup, hb]
    exact ih (fun y hy => hpre y (List.mem_cons_of_mem _ hy))

/-- The content type read on line 41 is the value of the first header whose name lower-cases
to `content-type`. -/
theorem contentType_of_first (headers : Obj) (pre post : List (String × Val)) (k : String)
    (v : Val) (hsplit : headers.entries = pre ++ (k, v) :: post)
    (hfirst : ∀ e ∈ pre, toLowerCase e.1 ≠ "content-type")
    (hk : toLowerCase k = "content-type") : contentType headers = some v := by
  have hkey : contentTypeKey headers = some k := by
    unfold contentTypeKey Obj.keys
    rw [hsplit, List.map_append, List.map_cons]
    apply find_append_of_first
    · intro x hx
      obtain ⟨e, he, rfl⟩ := List.mem_map.1 hx
      simpa using hfirst e he
    · simpa using hk
  rw [contentType_of_key headers k hkey]
  unfold Obj.get
  rw [hsplit]
  apply lookup_append_of_first
  intro e he heq
  exact hfirst e he (by rw [heq]; exact hk)

/-- When a call is dispatched: validation let it through and the routing stage dispatched. -/
theorem apiCall_dispatched_iff (s : Schema) (d : Option Obj) (cfg : Config) :
    apiCall s d = Outcome.dispatched cfg ↔
      (∀ required, validated s = some required →
        requiredOk (effectiveData s d) required = some true) ∧
      route s (withData (preConfig s d) (effectiveData s d)) = Outcome.dispatched cfg := by
  constructor
  · intro h
    refine ⟨?_, apiCall_dispatched s d cfg h⟩
    intro required hv
    simp only [apiCall, hv] at h
    split at h
    · rename_i hok; exact hok
    · exact absurd h (by simp)
    · exact absurd h (by simp)
  · rintro ⟨hok, hr⟩
    match hv : validated s with
    | none => rw [apiCall_of_validated_none s d hv]; exact hr
    | some required =>
      simp only [apiCall, hv, hok required hv]
      exact hr

theorem validated_congr (s s2 : Schema) (h : s2.fields.data = s.fields.data) :
    validated s2 = validated s := by
  simp only [validated, h]

theorem effectiveData_congr (s s2 : Schema) (d : Option Obj)
    (h : s2.fields.data = s.fields.data) : effectiveData s2 d = effectiveData s d := by
  simp only [effectiveData, defaultsOf, h]

theorem isGet_congr (s s2 : Schema) (h : s2.fields.method = s.fields.method) :
    isGet s2 = isGet s := by
  simp only [isGet, h]

/-- C11 (as stated, refuted): the headers `{'Content-Type': 'application/json',
'content-type': 'application/x-www-form-urlencoded'}` contain a key that lower-cases to
`content-type` and whose value contains `application/x-www-form-urlencoded`, but line 37 finds
the other key first: the dispatched config has the payload in `body`, and `form` is not
set. -/
theorem later_content_type_header_ignored :
    "content-type" ∈ headersTwoContentTypes.keys ∧
      toLowerCase "content-type" = "content-type" ∧
      headersTwoContentTypes.get "content-type" =
        some (Val.str "application/x-www-form-urlencoded") ∧
      indexOf "application/x-www-form-urlencoded" "application/x-www-form-urlencoded" ≥ 0 ∧
      effectiveData postTwoContentTypes (some dataA) = some dataA ∧
      ∃ cfg, apiCall postTwoContentTypes (some dataA) = Outcome.dispatched cfg ∧
        cfg.form = none ∧ cfg.body = some dataA :=
  ⟨by decide, by decide, by decide, by decide, by decide,
    { method := some "post", url := some "/items", headers := some headersTwoContentTypes,
      data := some dataA, body := some dataA, json := some true },
    by decide, by decide, by decide⟩

/-- C11 (amended): when the first header whose name lower-cases to `content-type` has a value
containing `application/x-www-form-urlencoded`, every dispatched config has `form` equal to the
effective payload, and a call with a data mapping does not raise. Replacing that header name
by another one with the same lower-case form, everything else being the same, leaves the
outcome as it was: the call is dispatched again, with the same `data`, `qs`, `form`,
`formData`, `body` and `json`. -/
theorem content_type_found_case_insensitively (s : Schema) (d : Option Obj) (headers : Obj)
    (pre post : List (String × Val)) (k ct : String)
    (hh : s.fields.headers = some headers)
    (hsplit : headers.entries = pre ++ (k, Val.str ct) :: post)
    (hfirst : ∀ e ∈ pre, toLowerCase e.1 ≠ "content-type")
    (hk : toLowerCase k = "content-type")
    (hu : indexOf ct "application/x-www-form-urlencoded" ≥ 0) :
    (∀ cfg, apiCall s d = Outcome.dispatched cfg → cfg.form = effectiveData s d) ∧
    (∀ dat, d = some dat → apiCall s d ≠ Outcome.threw) ∧
    (∀ (s2 : Schema) (headers2 : Obj) (k2 : String),
      toLowerCase k2 = "content-type" →
      headers2.entries = pre ++ (k2, Val.str ct) :: post →
      s2.fields.headers = some headers2 →
      s2.fields.method = s.fields.method → s2.fields.data = s.fields.data →
      (preConfig s2 d).qs = (preConfig s d).qs → (preConfig s2 d).form = (preConfig s d).form →
      (preConfig s2 d).formData = (preConfig s d).formData →
      (preConfig s2 d).body = (preConfig s d).body →
      (preConfig s2 d).json = (preConfig s d).json →
      ∀ cfg, apiCall s d = Outcome.dispatched cfg →
        ∃ cfg2, apiCall s2 d = Outcome.dispatched cfg2 ∧ cfg2.data = cfg.data ∧
          cfg2.qs = cfg.qs ∧ cfg2.form = cfg.form ∧ cfg2.formData = cfg.formData ∧
          cfg2.body = cfg.body ∧ cfg2.json = cfg.json) := by
  have hct : contentType headers = some (Val.str ct) :=
    contentType_of_first headers pre post k _ hsplit hfirst hk
  have hform : contentTypeContains s "application/x-www-form-urlencoded" = true := by
    rw [contentTypeContains_of_contentType s _ headers ct hh hct]
    exact decide_eq_true hu
  refine ⟨?_, ?_, ?_⟩
  · intro cfg h
    have hf := (apiCall_dispatched_fields s d cfg h).2.2.2.2.2.2.1
    rw [hf, hform]
    rfl
  · rintro dat rfl
    apply apiCall_ne_threw
    intro headers3 hh3
    rw [hh] at hh3
    simp only [Option.some.injEq] at hh3
    subst hh3
    exact ⟨ct, hct⟩
  · intro s2 headers2 k2 hk2 hsplit2 hh2 hm hdata hqs hfo hfd hbo hjs cfg h
    have hct2 : contentType headers2 = some (Val.str ct) :=
      contentType_of_first headers2 pre post k2 _ hsplit2 hfirst hk2
    obtain ⟨hok, hr⟩ := (apiCall_dispatched_iff s d cfg).1 h
    have hroute2 : route s2 (withData (preConfig s2 d) (effectiveData s2 d)) =
        Outcome.dispatched
          (routeByContentType ct (routeQuery s2 (withData (preConfig s2 d)
            (effectiveData s2 d)))) := by
      simp only [route, hh2, hct2]
    have hroute : route s (withData (preConfig s d) (effectiveData s d)) =
        Outcome.dispatched
          (routeByContentType ct (routeQuery s (withData (preConfig s d)
            (effectiveData s d)))) := by
      simp only [route, hh, hct]
    rw [hroute] at hr
    simp only [Outcome.dispatched.injEq] at hr
    subst hr
    refine ⟨_, (apiCall_dispatched_iff s2 d _).2 ⟨?_, hroute2⟩, ?_⟩
    · intro required hv
      rw [validated_congr s s2 hdata] at hv
      rw [effectiveData_congr s s2 d hdata]
      exact hok required hv
    · simp only [routeByContentType_data, routeByContentType_qs, routeByContentType_form,
        routeByContentType_formData, routeByContentType_body, routeByContentType_json,
        routeQuery_data, routeQuery_qs, routeQuery_form, routeQuery_formData, routeQuery_body,
        routeQuery_json, isGet_congr s s2 hm, effectiveData_congr s s2 d hdata]
      simp [withData, hqs, hfo, hfd, hbo, hjs]

/-- Witness for C11 (amended): with the headers `{Accept: 'text/html', 'CONTENT-TYPE':
'application/x-www-form-urlencoded; charset=utf-8'}` the payload `{a: 1}` goes to `form`, and
writing the header name `'Content-Type'` instead gives the same channels. -/
theorem content_type_found_case_insensitively_witness :
    apiCall postFormUpper (some dataA) = Outcome.dispatched
        { method := some "post", url := some "/items", headers := some headersFormUpper,
          data := some dataA, form := some dataA } ∧
      (∃ cfg2, apiCall postFormMixed (some dataA) = Outcome.dispatched cfg2 ∧
        cfg2.data = some dataA ∧ cfg2.qs = none ∧ cfg2.form = some dataA ∧
        cfg2.formData = none ∧ cfg2.body = none ∧ cfg2.json = none) :=
  ⟨by decide,
    (content_type_found_case_insensitively postFormUpper (some dataA) headersFormUpper
      [("Accept", Val.str "text/html")] [] "CONTENT-TYPE"
      "application/x-www-form-urlencoded; charset=utf-8" rfl rfl (by decide) (by decide)
      (by decide)).2.2 postFormMixed headersFormMixed "Content-Type" (by decide) rfl rfl rfl rfl
      rfl rfl rfl rfl rfl
      { method := some "post", url := some "/items", headers := some headersFormUpper,
        data := some dataA, form := some dataA } (by decide)⟩

/-! ## The schema walker -/

theorem propsFrames_pos (properties : List (String × Node)) : 1 ≤ propsFrames properties := by
  cases properties with
  | nil => simp [propsFrames]
  | cons entry rest =>
    obtain ⟨key, node⟩ := entry
    simp only [propsFrames]
    omega

theorem makeApi_nil (stack : Nat) (h : 1 ≤ stack) :
    makeApi stack [] = Except.ok [] := by
  cases stack with
  | zero => omega
  | succ n => rfl

theorem areWalkable_cons (key : String) (node : Node) (rest : List (String × Node)) :
    areWalkable ((key, node) :: rest) = true ↔
      key ≠ "apiSchema" ∧ key ∉ rest.map Prod.fst ∧ isWalkable node = true ∧
        areWalkable rest = true := by
  simp [areWalkable, and_assoc]

theorem areSchemaTrees_cons (key : String) (node : Node) (rest : List (String × Node)) :
    areSchemaTrees ((key, node) :: rest) = true ↔
      key ≠ "apiSchema" ∧ key ∉ rest.map Prod.fst ∧ isSchemaTree node = true ∧
        areSchemaTrees rest = true := by
  simp [areSchemaTrees, and_assoc]

/-- With enough call stack, `makeApi` builds for a walkable schema what the spec's `build`
describes. -/
theorem makeApi_eq_specBuild (stack : Nat) :
    ∀ properties : List (String × Node), areWalkable properties = true →
      propsFrames properties ≤ stack →
      makeApi stack properties = Except.ok (specBuild properties) := by
  induction stack with
  | zero =>
    intro properties _ hs
    have := propsFrames_pos properties
    omega
  | succ n ih =>
    intro properties
    show areWalkable properties = true → propsFrames properties ≤ n + 1 →
      makeApiLoop (makeApi n) properties = Except.ok (specBuild properties)
    induction properties with
    | nil => intro _ _; rfl
    | cons entry rest ihl =>
      obtain ⟨key, node⟩ := entry
      intro hw hs
      obtain ⟨_, _, hnode, hrest⟩ := (areWalkable_cons key node rest).1 hw
      simp only [propsFrames] at hs
      have hs1 : nodeFrames node ≤ n := by omega
      have hs2 : propsFrames rest ≤ n + 1 := by omega
      have hentry : makeEntry (makeApi n) node = Except.ok (specBuildNode node) := by
        cases node with
        | undefined => simp [isWalkable] at hnode
        | endpoint definition => rfl
        | mapping children =>
          simp only [isWalkable] at hnode
          simp only [nodeFrames] at hs1
          simp only [makeEntry, ih children hnode hs1, specBuildNode]
          rfl
        | scalar v =>
          simp only [nodeFrames] at hs1
          cases v with
          | null => simp [isWalkable] at hnode
          | bool b => simp only [makeEntry, makeApi_nil n hs1, specBuildNode]; rfl
          | num k => simp only [makeEntry, makeApi_nil n hs1, specBuildNode]; rfl
          | str t =>
            simp only [isWalkable, decide_eq_true_eq] at hnode
            subst hnode
            have hc : characters "" = [] := rfl
            simp only [makeEntry, hc, makeApi_nil n hs1, specBuildNode]
            rfl
      simp only [makeApiLoop, hentry, ihl hrest hs2, specBuild]

theorem keys_specBuild (properties : List (String × Node)) :
    (specBuild properties).map Prod.fst = properties.map Prod.fst := by
  induction properties with
  | nil => rfl
  | cons entry rest ih =>
    obtain ⟨key, node⟩ := entry
    simp only [specBuild, List.map_cons, ih]

theorem lookup_specBuild (properties : List (String × Node)) (key : String) :
    (specBuild properties).lookup key = (properties.lookup key).map specBuildNode := by
  induction properties with
  | nil => rfl
  | cons entry rest ih =>
    obtain ⟨k, node⟩ := entry
    simp only [specBuild, List.lookup]
    cases key == k with
    | true => rfl
    | false => exact ih

theorem memberAt_nil (path : List String) : memberAt [] path = none := by
  match path with
  | [] => rfl
  | [_] => rfl
  | _ :: _ :: _ => rfl

/-- Following a path in what `build` produced is following it in the schema and building what
is found there. -/
theorem memberAt_specBuild (path : List String) :
    ∀ properties : List (String × Node),
      memberAt (specBuild properties) path = (nodeAt properties path).map specBuildNode := by
  induction path with
  | nil => intro properties; rfl
  | cons key tail ih =>
    intro properties
    cases tail with
    | nil => simp only [memberAt, nodeAt, lookup_specBuild]
    | cons next more =>
      simp only [memberAt, nodeAt, lookup_specBuild]
      cases hl : properties.lookup key with
      | none => rfl
      | some node =>
        cases node with
        | mapping children =>
          simp only [Option.map, specBuildNode]
          exact ih children
        | endpoint definition => simp only [Option.map, specBuildNode]
        | undefined => simp only [Option.map, specBuildNode, memberAt_nil]
        | scalar v => simp only [Option.map, specBuildNode, memberAt_nil]

theorem walkable_of_lookup (properties : List (String × Node)) (key : String) (node : Node)
    (hw : areWalkable properties = true) (hl : properties.lookup key = some node) :
    isWalkable node = true ∧ nodeFrames node + 1 ≤ propsFrames properties := by
  induction properties with
  | nil => simp [List.lookup] at hl
  | cons entry rest ih =>
    obtain ⟨k, n⟩ := entry
    obtain ⟨_, _, hnode, hrest⟩ := (areWalkable_cons k n rest).1 hw
    simp only [List.lookup] at hl
    simp only [propsFrames]
    cases hk : key == k with
    | true =>
      rw [hk] at hl
      simp only [Option.some.injEq] at hl
      subst hl
      exact ⟨hnode, by omega⟩
    | false =>
      rw [hk] at hl
      obtain ⟨h1, h2⟩ := ih hrest hl
      exact ⟨h1, by omega⟩

/-- A mapping found along a path of a walkable schema is walkable and needs no more call
stack than the whole schema. -/
theorem walkable_of_nodeAt (path : List String) :
    ∀ (properties children : List (String × Node)), areWalkable properties = true →
      nodeAt properties path = some (Node.mapping children) →
      areWalkable children = true ∧ propsFrames children ≤ propsFrames properties := by
  induction path with
  | nil => intro properties children _ h; simp [nodeAt] at h
  | cons key tail ih =>
    intro properties children hw h
    cases tail with
    | nil =>
      simp only [nodeAt] at h
      obtain ⟨h1, h2⟩ := walkable_of_lookup properties key _ hw h
      simp only [isWalkable] at h1
      simp only [nodeFrames] at h2
      exact ⟨h1, by omega⟩
    | cons next more =>
      simp only [nodeAt] at h
      cases hl : properties.lookup key with
      | none => rw [hl] at h; simp at h
      | some node =>
        rw [hl] at h
        cases node with
        | mapping inner =>
          simp only at h
          obtain ⟨h1, h2⟩ := walkable_of_lookup properties key _ hw hl
          simp only [isWalkable] at h1
          simp only [nodeFrames] at h2
          obtain ⟨h3, h4⟩ := ih inner children h1 h
          exact ⟨h3, by omega⟩
        | endpoint definition => simp at h
        | undefined => simp at h
        | scalar v => simp at h

/-- Schema trees are walkable (shown along the call stack they need). -/
theorem areWalkable_of_areSchemaTrees (bound : Nat) :
    ∀ properties : List (String × Node), propsFrames properties ≤ bound →
      areSchemaTrees properties = true → areWalkable properties = true := by
  induction bound with
  | zero =>
    intro properties hb _
    have := propsFrames_pos properties
    omega
  | succ n ih =>
    intro properties
    induction properties with
    | nil => intro _ _; rfl
    | cons entry rest ihl =>
      obtain ⟨key, node⟩ := entry
      intro hb ht
      obtain ⟨h1, h2, hnode, hrest⟩ := (areSchemaTrees_cons key node rest).1 ht
      simp only [propsFrames] at hb
      refine (areWalkable_cons key node rest).2 ⟨h1, h2, ?_, ihl (by omega) hrest⟩
      cases node with
      | endpoint definition => rfl
      | mapping children =>
        simp only [isSchemaTree] at hnode
        simp only [nodeFrames] at hb
        simp only [isWalkable]
        exact ih children (by omega) hnode
      | undefined => simp [isSchemaTree] at hnode
      | scalar v => simp [isSchemaTree] at hnode

/-- C13: for a schema tree, with call stack for its depth, `makeApi` succeeds and the object it
builds has the keys of the schema, in order; along every path of keys, an endpoint of the
schema is matched by a method whose `schema` property is that endpoint's definition and whose
call with `data` is `apiCall(definition, data)`, and a nested schema is matched by an object
with the keys of that nested schema, which is what `makeApi` builds for it. -/
theorem makeApi_mirrors_schema_tree (properties : List (String × Node)) (stack : Nat)
    (htree : areSchemaTrees properties = true) (hstack : propsFrames properties ≤ stack) :
    ∃ api, makeApi stack properties = Except.ok api ∧
      api.map Prod.fst = properties.map Prod.fst ∧
      (∀ path definition, nodeAt properties path = some (Node.endpoint definition) →
        ∃ m, memberAt api path = some m ∧ m.schema = some definition ∧
          ∀ data, m.invoke data = some (apiCall definition data)) ∧
      (∀ path children, nodeAt properties path = some (Node.mapping children) →
        ∃ members, memberAt api path = some (Api.object members) ∧
          members.map Prod.fst = children.map Prod.fst ∧
          makeApi stack children = Except.ok members) := by
  have hw := areWalkable_of_areSchemaTrees _ properties (le_refl _) htree
  refine ⟨specBuild properties, makeApi_eq_specBuild stack properties hw hstack,
    keys_specBuild properties, ?_, ?_⟩
  · intro path definition hnode
    refine ⟨Api.method definition, ?_, rfl, fun _ => rfl⟩
    rw [memberAt_specBuild, hnode]
    rfl
  · intro path children hnode
    obtain ⟨hwc, hfc⟩ := walkable_of_nodeAt path properties children hw hnode
    refine ⟨specBuild children, ?_, keys_specBuild children,
      makeApi_eq_specBuild stack children hwc (le_trans hfc hstack)⟩
    rw [memberAt_specBuild, hnode]
    rfl

/-- Witness for C13: the two-level schema `{users: {list: ..., create: ...}, ping: ...}` built
with room for two nested calls. -/
theorem makeApi_mirrors_schema_tree_witness :
    areSchemaTrees twoLevelSchema = true ∧ propsFrames twoLevelSchema ≤ 2 ∧
      nodeAt twoLevelSchema ["users", "list"] = some (Node.endpoint needsA) ∧
      ∃ api, makeApi 2 twoLevelSchema = Except.ok api ∧
        api.map Prod.fst = ["users", "ping"] ∧
        (∃ m, memberAt api ["users", "list"] = some m ∧ m.schema = some needsA ∧
          ∀ data, m.invoke data = some (apiCall needsA data)) ∧
        (∃ members, memberAt api ["users"] = some (Api.object members) ∧
          members.map Prod.fst = ["list", "create"]) := by
  obtain ⟨api, hbuilt, hkeys, hleaf, hnested⟩ :=
    makeApi_mirrors_schema_tree twoLevelSchema 2 (by decide) (by decide)
  refine ⟨by decide, by decide, rfl, api, hbuilt, hkeys, hleaf ["users", "list"] needsA rfl, ?_⟩
  obtain ⟨members, hm, hk, _⟩ := hnested ["users"] _ rfl
  exact ⟨members, hm, hk⟩

theorem Grows.refl (h : Heap) : Grows h h := ⟨le_refl _, fun _ _ => rfl⟩

theorem Grows.trans {h1 h2 h3 : Heap} (h12 : Grows h1 h2) (h23 : Grows h2 h3) :
    Grows h1 h3 :=
  ⟨le_trans h12.1 h23.1, fun a ha => by
    rw [h23.2 a (lt_of_lt_of_le ha h12.1), h12.2 a ha]⟩

theorem grows_append (h ext : Heap) : Grows h (h ++ ext) :=
  ⟨by simp, fun a ha => List.getElem?_append_left ha⟩

theorem length_modify (h : Heap) (c : Nat) (f : Record → Record) :
    (modify h c f).length = h.length := by
  unfold modify
  split <;> simp

theorem getElem?_modify_ne (h : Heap) (c a : Nat) (f : Record → Record) (hne : a ≠ c) :
    (modify h c f)[a]? = h[a]? := by
  unfold modify
  split
  · exact List.getElem?_set_ne (fun e => hne e.symm)
  · rfl

theorem getElem?_modify_self (h : Heap) (c : Nat) (f : Record → Record) (r : Record)
    (hc : h[c]? = some (Cell.record r)) : (modify h c f)[c]? = some (Cell.record (f r)) := by
  have hlt : c < h.length := by
    rcases Nat.lt_or_ge c h.length with hlt | hge
    · exact hlt
    · rw [List.getElem?_eq_none hge] at hc; exact absurd hc (by simp)
  simp only [modify, hc]
  rw [List.getElem?_set_self hlt]

theorem grows_modify (h : Heap) (c : Nat) (f : Record → Record) (n : Nat) (hn : n ≤ c) :
    ∀ a, a < n → (modify h c f)[a]? = h[a]? :=
  fun a ha => getElem?_modify_ne h c a f (by omega)

/-- A write to the record at `c` changes no mapping of scalars. -/
theorem plainAt_modify (h : Heap) (c : Nat) (f : Record → Record) (a : Nat) :
    plainAt (modify h c f) a = plainAt h a := by
  by_cases hac : a = c
  · subst hac
    cases hc : h[a]? with
    | none => simp only [modify, hc]
    | some cell =>
      cases cell with
      | record r => simp only [plainAt, getElem?_modify_self h a f r hc, hc]
      | plain o => simp only [modify, hc]
      | rules df req v => simp only [modify, hc]
  · simp only [plainAt, getElem?_modify_ne h c a f hac]

theorem plainAt_lt (h : Heap) (a : Nat) (o : Obj) (ha : plainAt h a = some o) :
    a < h.length := by
  rcases Nat.lt_or_ge a h.length with hlt | hge
  · exact hlt
  · simp [plainAt, List.getElem?_eq_none hge] at ha

theorem plainAt_grows {h1 h2 : Heap} (hg : Grows h1 h2) (a : Nat) (o : Obj)
    (ha : plainAt h1 a = some o) : plainAt h2 a = some o := by
  have hlt := plainAt_lt h1 a o ha
  simp only [plainAt, hg.2 a hlt]
  exact ha

theorem derefPlain_grows {h1 h2 : Heap} (hg : Grows h1 h2) (x : Option Nat) (v : Option Obj)
    (hx : derefPlain h1 x = some v) : derefPlain h2 x = some v := by
  cases x with
  | none => exact hx
  | some a =>
    simp only [derefPlain, Option.map_eq_some'] at hx
    obtain ⟨o, ho, rfl⟩ := hx
    simp only [derefPlain, plainAt_grows hg a o ho, Option.map]

theorem rulesAt_grows {h1 h2 : Heap} (hg : Grows h1 h2) (a : Nat) (rules : DataRules)
    (ha : rulesAt h1 a = some rules) : rulesAt h2 a = some rules := by
  have hlt : a < h1.length := by
    rcases Nat.lt_or_ge a h1.length with hlt | hge
    · exact hlt
    · simp [rulesAt, List.getElem?_eq_none hge] at ha
  cases hcell : h1[a]? with
  | none => simp [rulesAt, hcell] at ha
  | some cell =>
    cases cell with
    | plain o => simp [rulesAt, hcell] at ha
    | record r => simp [rulesAt, hcell] at ha
    | rules df req v =>
      simp only [rulesAt, hcell, Option.map_eq_some'] at ha
      obtain ⟨d, hd, rfl⟩ := ha
      simp only [rulesAt, hg.2 a hlt, hcell, derefPlain_grows hg df d hd, Option.map]

theorem derefRules_grows {h1 h2 : Heap} (hg : Grows h1 h2) (x : Option Nat)
    (v : Option DataRules) (hx : derefRules h1 x = some v) : derefRules h2 x = some v := by
  cases x with
  | none => exact hx
  | some a =>
    simp only [derefRules, Option.map_eq_some'] at hx
    obtain ⟨o, ho, rfl⟩ := hx
    simp only [derefRules, rulesAt_grows hg a o ho, Option.map]

/-- What `definitionAt h a = some s` says, field by field. -/
theorem definitionAt_eq_some (h : Heap) (a : Nat) (s : Schema) :
    definitionAt h a = some s ↔
      ∃ r, h[a]? = some (Cell.record r) ∧
        derefPlain h r.headers = some s.fields.headers ∧
        derefRules h r.data = some s.fields.data ∧
        derefPlain h r.qs = some s.fields.qs ∧ derefPlain h r.form = some s.fields.form ∧
        derefPlain h r.formData = some s.fields.formData ∧
        derefPlain h r.body = some s.fields.body ∧
        s = { fields :=
                { method := r.method, url := r.url, headers := s.fields.headers,
                  data := s.fields.data, qs := s.fields.qs, form := s.fields.form,
                  formData := s.fields.formData, body := s.fields.body, json := r.json,
                  rest := r.rest },
              extendConfig := none } := by
  unfold definitionAt
  constructor
  · intro hdef
    split at hdef
    · rename_i r hcell
      simp only [Option.bind_eq_some] at hdef
      obtain ⟨headers, h1, data, h2, qs, h3, form, h4, formData, h5, body, h6, hs⟩ := hdef
      simp only [Option.some.injEq] at hs
      subst hs
      exact ⟨r, hcell, h1, h2, h3, h4, h5, h6, rfl⟩
    · exact absurd hdef (by simp)
  · rintro ⟨r, hcell, h1, h2, h3, h4, h5, h6, hs⟩
    rw [hcell]
    simp only [h1, h2, h3, h4, h5, h6, Option.some_bind]
    rw [hs]

/-- A definition read from the heap reads the same from any heap that keeps the old
objects. -/
theorem definitionAt_grows {h1 h2 : Heap} (hg : Grows h1 h2) (a : Nat) (s : Schema)
    (ha : definitionAt h1 a = some s) : definitionAt h2 a = some s := by
  obtain ⟨r, hcell, e1, e2, e3, e4, e5, e6, hs⟩ := (definitionAt_eq_some h1 a s).1 ha
  have hlt : a < h1.length := by
    rcases Nat.lt_or_ge a h1.length with hlt | hge
    · exact hlt
    · rw [List.getElem?_eq_none hge] at hcell; exact absurd hcell (by simp)
  refine (definitionAt_eq_some h2 a s).2 ⟨r, ?_, derefPlain_grows hg _ _ e1,
    derefRules_grows hg _ _ e2, derefPlain_grows hg _ _ e3, derefPlain_grows hg _ _ e4,
    derefPlain_grows hg _ _ e5, derefPlain_grows hg _ _ e6, hs⟩
  rw [hg.2 a hlt, hcell]

theorem grows_modify_of_grows {h1 h2 : Heap} (hg : Grows h1 h2) (c : Nat)
    (f : Record → Record) (hc : h1.length ≤ c) : Grows h1 (modify h2 c f) :=
  ⟨by rw [length_modify]; exact hg.1, fun a ha => by
    rw [getElem?_modify_ne h2 c a f (by omega), hg.2 a ha]⟩

theorem grows_routeByContentTypeOnHeap {h0 h : Heap} (ct : String) (c : Nat)
    (hg : Grows h0 h) (hc : h0.length ≤ c) : Grows h0 (routeByContentTypeOnHeap ct h c) := by
  unfold routeByContentTypeOnHeap
  have step : ∀ (hx : Heap) (f : Record → Record) (p : Prop) [Decidable p],
      Grows h0 hx → Grows h0 (if p then modify hx c f else hx) := by
    intro hx f p _ hgx
    split
    · exact grows_modify_of_grows hgx c f hc
    · exact hgx
  exact step _ _ _ (step _ _ _ (step _ _ _ hg))

theorem grows_routeOnHeap {h0 h : Heap} (schema c : Nat) (hg : Grows h0 h)
    (hc : h0.length ≤ c) : Grows h0 (routeOnHeap h schema c).1 := by
  unfold routeOnHeap
  split
  · exact hg
  · rename_i s _
    have h1 : Grows h0 (if isGet s = true then modify h c (fun r => { r with qs := r.data })
        else h) := by
      split
      · exact grows_modify_of_grows hg c _ hc
      · exact hg
    simp only
    split
    · split
      · exact grows_routeByContentTypeOnHeap _ c h1 hc
      · exact h1
    · exact grows_modify_of_grows h1 c _ hc

theorem grows_mergeOnHeap (h : Heap) (schema : Nat) (data : Option Nat) :
    Grows h (mergeOnHeap h schema data).1 := by
  unfold mergeOnHeap
  split
  · exact grows_append h _
  · exact Grows.refl h

/-- The frame of one call: `apiCall` leaves every object that existed before the call as it
was. Its writes go to the config it creates on line 13 and to the payload it creates on
line 19. -/
theorem grows_apiCallOnHeap (h : Heap) (schema : Nat) (data : Option Nat) :
    Grows h (apiCallOnHeap h schema data).1 := by
  unfold apiCallOnHeap
  split
  · rename_i definition _
    have h1 : Grows h (h ++ [Cell.record definition]) := grows_append h _
    have h2 : Grows h (mergeOnHeap (h ++ [Cell.record definition]) schema data).1 :=
      h1.trans (grows_mergeOnHeap _ schema data)
    have h3 : Grows h (modify (mergeOnHeap (h ++ [Cell.record definition]) schema data).1
        h.length (fun c =>
          { c with data := (mergeOnHeap (h ++ [Cell.record definition]) schema data).2 })) :=
      grows_modify_of_grows h2 _ _ (le_refl _)
    simp only
    split
    · split
      · exact grows_routeOnHeap schema _ h3 (le_refl _)
      · exact h3
      · exact h3
    · exact grows_routeOnHeap schema _ h3 (le_refl _)
  · exact Grows.refl h

/-! ## The heap: what a call computes -/

theorem readRecord_modify (h : Heap) (c : Nat) (f : Record → Record) (r : Record) :
    readRecord (modify h c f) r = readRecord h r := by
  have hp : plainAt (modify h c f) = plainAt h := funext (plainAt_modify h c f)
  simp only [readRecord, hp]

theorem derefPlain_modify (h : Heap) (c : Nat) (f : Record → Record) (x : Option Nat) :
    derefPlain (modify h c f) x = derefPlain h x := by
  cases x with
  | none => rfl
  | some a => simp only [derefPlain, plainAt_modify]

theorem derefPlain_bind (h : Heap) (x : Option Nat) (v : Option Obj)
    (hx : derefPlain h x = some v) : x.bind (plainAt h) = v := by
  cases x with
  | none =>
    simp only [derefPlain, Option.some.injEq] at hx
    subst hx
    rfl
  | some a =>
    simp only [derefPlain, Option.map_eq_some'] at hx
    obtain ⟨o, ho, rfl⟩ := hx
    simpa using ho

theorem configAt_of_configIs (h : Heap) (c : Nat) (cfg : Config) (hc : ConfigIs h c cfg) :
    configAt h c = some cfg := by
  obtain ⟨r, hcell, hr⟩ := hc
  simp only [configAt, hcell, hr]

/-- A write to the config record, read back. -/
theorem modify_configIs (h : Heap) (c : Nat) (cfg : Config) (f : Record → Record)
    (g : Config → Config) (hc : ConfigIs h c cfg)
    (hfg : ∀ r, readRecord h (f r) = g (readRecord h r)) :
    ConfigIs (modify h c f) c (g cfg) := by
  obtain ⟨r, hcell, hr⟩ := hc
  refine ⟨f r, getElem?_modify_self h c f r hcell, ?_⟩
  rw [readRecord_modify, hfg, hr]

theorem routeByContentTypeOnHeap_configIs (ct : String) (h : Heap) (c : Nat) (cfg : Config)
    (hc : ConfigIs h c cfg) :
    ConfigIs (routeByContentTypeOnHeap ct h c) c (routeByContentType ct cfg) := by
  unfold routeByContentTypeOnHeap routeByContentType
  have s1 : ConfigIs
      (if indexOf ct "application/x-www-form-urlencoded" ≥ 0
        then modify h c (fun r => { r with form := r.data }) else h) c
      (if indexOf ct "application/x-www-form-urlencoded" ≥ 0
        then { cfg with form := cfg.data } else cfg) := by
    split
    · exact modify_configIs h c cfg _ (fun k => { k with form := k.data }) hc (fun _ => rfl)
    · exact hc
  have s2 : ∀ (hx : Heap) (k : Config), ConfigIs hx c k → ConfigIs
      (if indexOf ct "multipart/form-data" ≥ 0
        then modify hx c (fun r => { r with formData := r.data }) else hx) c
      (if indexOf ct "multipart/form-data" ≥ 0
        then { k with formData := k.data } else k) := by
    intro hx k hk
    split
    · exact modify_configIs hx c k _ (fun k => { k with formData := k.data }) hk
        (fun _ => rfl)
    · exact hk
  have s3 : ∀ (hx : Heap) (k : Config), ConfigIs hx c k → ConfigIs
      (if indexOf ct "application/json" ≥ 0
        then modify hx c (fun r => { r with body := r.data, json := some true }) else hx) c
      (if indexOf ct "application/json" ≥ 0
        then { k with body := k.data, json := some true } else k) := by
    intro hx k hk
    split
    · exact modify_configIs hx c k _ (fun k => { k with body := k.data, json := some true }) hk
        (fun _ => rfl)
    · exact hk
  exact s3 _ _ (s2 _ _ s1)

/-- The routing stage on the heap writes to the config what `route` computes. -/
theorem routeOnHeap_refines (h0 h : Heap) (schema c : Nat) (s : Schema) (cfg : Config)
    (hdef : definitionAt h0 schema = some s) (hg : Grows h0 h) (hc : h0.length ≤ c)
    (hcfg : ConfigIs h c cfg) : readOutcome (routeOnHeap h schema c) = route s cfg := by
  have hdefh : definitionAt h schema = some s := definitionAt_grows hg schema s hdef
  have hq : ConfigIs (if isGet s = true then modify h c (fun r => { r with qs := r.data })
      else h) c (routeQuery s cfg) := by
    unfold routeQuery
    split
    · exact modify_configIs h c cfg _ (fun k => { k with qs := k.data }) hcfg (fun _ => rfl)
    · exact hcfg
  have hgq : Grows h0 (if isGet s = true then modify h c (fun r => { r with qs := r.data })
      else h) := by
    split
    · exact grows_modify_of_grows hg c _ hc
    · exact hg
  have hdefq := definitionAt_grows hgq schema s hdef
  simp only [routeOnHeap, hdefh, hdefq, Option.some_bind, route]
  cases hh : s.fields.headers with
  | none =>
    simp only [readOutcome]
    have hb := modify_configIs _ c _ (fun r => { r with body := r.data, json := some true })
      (fun k => { k with body := k.data, json := some true }) hq (fun _ => rfl)
    rw [configAt_of_configIs _ c _ hb]
  | some headers =>
    simp only
    cases hct : contentType headers with
    | none => rfl
    | some v =>
      cases v with
      | str ct =>
        simp only [readOutcome]
        rw [configAt_of_configIs _ c _ (routeByContentTypeOnHeap_configIs ct _ c _ hq)]
      | null => rfl
      | bool b => rfl
      | num n => rfl

theorem bind_plainAt_grows {h1 h2 : Heap} (hg : Grows h1 h2) (data : Option Nat)
    (hdata : ∀ a, data = some a → ∃ o, plainAt h1 a = some o) :
    data.bind (plainAt h2) = data.bind (plainAt h1) := by
  cases data with
  | none => rfl
  | some a =>
    obtain ⟨o, ho⟩ := hdata a rfl
    simp only [Option.some_bind, ho, plainAt_grows hg a o ho]

theorem plainAt_concat (h : Heap) (o : Obj) :
    plainAt (h ++ [Cell.plain o]) h.length = some o := by
  simp only [plainAt, List.getElem?_concat_length]

/-- Line 19 on the heap yields the address of the effective payload. -/
theorem mergeOnHeap_refines (h0 h : Heap) (schema : Nat) (data : Option Nat) (s : Schema)
    (hdef : definitionAt h0 schema = some s) (hg : Grows h0 h)
    (hdata : ∀ a, data = some a → ∃ o, plainAt h0 a = some o) :
    derefPlain (mergeOnHeap h schema data).1 (mergeOnHeap h schema data).2 =
      some (effectiveData s (data.bind (plainAt h0))) := by
  have hdefh : definitionAt h schema = some s := definitionAt_grows hg schema s hdef
  simp only [mergeOnHeap, hdefh, Option.some_bind, effectiveData]
  cases hd : defaultsOf s with
  | some defaults =>
    simp only [derefPlain, plainAt_concat, bind_plainAt_grows hg data hdata, Option.map]
  | none =>
    simp only
    cases data with
    | none => rfl
    | some a =>
      obtain ⟨o, ho⟩ := hdata a rfl
      simp only [derefPlain, plainAt_grows hg a o ho, Option.some_bind, ho, Option.map]

/-- One call on the heap ends in what `apiCall` computes from the definition and the data
found at the two addresses. -/
theorem apiCallOnHeap_refines (h : Heap) (schema : Nat) (data : Option Nat) (s : Schema)
    (hdef : definitionAt h schema = some s)
    (hdata : ∀ a, data = some a → ∃ o, plainAt h a = some o) :
    readOutcome (apiCallOnHeap h schema data) = apiCall s (data.bind (plainAt h)) := by
  obtain ⟨r, hcell, e1, _, e3, e4, e5, e6, hs⟩ := (definitionAt_eq_some h schema s).1 hdef
  have hhook : s.extendConfig = none := by rw [hs]
  have hpre : preConfig s (data.bind (plainAt h)) = s.fields := by
    simp only [preConfig, hhook]
  have hg1 : Grows h (h ++ [Cell.record r]) := grows_append h _
  have hgm : Grows (h ++ [Cell.record r]) (mergeOnHeap (h ++ [Cell.record r]) schema data).1 :=
    grows_mergeOnHeap _ schema data
  have hg2 : Grows h (mergeOnHeap (h ++ [Cell.record r]) schema data).1 := hg1.trans hgm
  have hpay := mergeOnHeap_refines h (h ++ [Cell.record r]) schema data s hdef hg1 hdata
  have hcfgcell : (mergeOnHeap (h ++ [Cell.record r]) schema data).1[h.length]? =
      some (Cell.record r) := by
    rw [hgm.2 h.length (by simp), List.getElem?_concat_length]
  have hg3 : Grows h (modify (mergeOnHeap (h ++ [Cell.record r]) schema data).1 h.length
      (fun c => { c with data := (mergeOnHeap (h ++ [Cell.record r]) schema data).2 })) :=
    grows_modify_of_grows hg2 _ _ (le_refl _)
  have hdef3 := definitionAt_grows hg3 schema s hdef
  have hpay3 : (mergeOnHeap (h ++ [Cell.record r]) schema data).2.bind
      (plainAt (modify (mergeOnHeap (h ++ [Cell.record r]) schema data).1 h.length
        (fun c => { c with data := (mergeOnHeap (h ++ [Cell.record r]) schema data).2 }))) =
      effectiveData s (data.bind (plainAt h)) := by
    apply derefPlain_bind
    rw [derefPlain_modify]
    exact hpay
  have field : ∀ (x : Option Nat) (v : Option Obj), derefPlain h x = some v →
      x.bind (plainAt (modify (mergeOnHeap (h ++ [Cell.record r]) schema data).1 h.length
        (fun c => { c with data := (mergeOnHeap (h ++ [Cell.record r]) schema data).2 }))) =
      v := fun x v hx => derefPlain_bind _ x v (derefPlain_grows hg3 x v hx)
  have hcfg : ConfigIs (modify (mergeOnHeap (h ++ [Cell.record r]) schema data).1 h.length
      (fun c => { c with data := (mergeOnHeap (h ++ [Cell.record r]) schema data).2 }))
      h.length (withData s.fields (effectiveData s (data.bind (plainAt h)))) := by
    refine ⟨_, getElem?_modify_self _ _ _ r hcfgcell, ?_⟩
    simp only [readRecord, withData, hpay3, field _ _ e1, field _ _ e3, field _ _ e4,
      field _ _ e5, field _ _ e6]
    rw [hs]
  have hroute := routeOnHeap_refines h _ schema h.length s _ hdef hg3 (le_refl _) hcfg
  simp only [apiCallOnHeap, hcell, hdef3, Option.some_bind, hpay3, apiCall, hpre]
  cases hv : validated s with
  | none => exact hroute
  | some required =>
    simp only
    cases hok : requiredOk (effectiveData s (data.bind (plainAt h))) required with
    | none =>
      cases effectiveData s (data.bind (plainAt h)) <;> rfl
    | some b =>
      cases b with
      | true => exact hroute
      | false =>
        cases effectiveData s (data.bind (plainAt h)) <;> rfl

/-- Any sequence of calls of one method: every result is what `apiCall` computes from the
definition as it was before the first call, and the heap keeps every earlier object. -/
theorem callSequence_refines (schema : Nat) (s : Schema) (calls : List (Option Obj)) :
    ∀ h : Heap, definitionAt h schema = some s →
      (callSequence h schema calls).2 = calls.map (apiCall s) ∧
        Grows h (callSequence h schema calls).1 := by
  induction calls with
  | nil => intro h _; exact ⟨rfl, Grows.refl h⟩
  | cons data later ih =>
    intro h hdef
    cases data with
    | none =>
      have hres := apiCallOnHeap_refines h schema none s hdef (fun a ha => by simp at ha)
      have hg := grows_apiCallOnHeap h schema none
      obtain ⟨hrest, hgrest⟩ := ih _ (definitionAt_grows hg schema s hdef)
      refine ⟨?_, hg.trans hgrest⟩
      simp only [callSequence, Option.map, List.map_cons, hrest, hres]
      rfl
    | some o =>
      have hg1 : Grows h (h ++ [Cell.plain o]) := grows_append h _
      have hdef1 := definitionAt_grows hg1 schema s hdef
      have hres := apiCallOnHeap_refines (h ++ [Cell.plain o]) schema (some h.length) s hdef1
        (fun a ha => by
          simp only [Option.some.injEq] at ha
          subst ha
          exact ⟨o, plainAt_concat h o⟩)
      have hg := grows_apiCallOnHeap (h ++ [Cell.plain o]) schema (some h.length)
      obtain ⟨hrest, hgrest⟩ := ih _ (definitionAt_grows hg schema s hdef1)
      refine ⟨?_, hg1.trans (hg.trans hgrest)⟩
      simp only [callSequence, Option.map, List.map_cons, hrest, hres, Option.some_bind,
        plainAt_concat]

/-- C12: for a definition without a hook, held with its `data` sub-record, defaults and
headers on a heap of shared objects, and any sequence of calls with any data: every object that
existed before the calls, the definition, its `data` sub-record and its defaults among them, is
afterwards as it was; the definition still reads the same; and each call ends in what `apiCall`
computes from that definition and that call's data alone. -/
theorem definition_unchanged_by_calls (h : Heap) (schema : Nat) (s : Schema)
    (calls : List (Option Obj)) (hdef : definitionAt h schema = some s) :
    (∀ a, a < h.length → (callSequence h schema calls).1[a]? = h[a]?) ∧
      definitionAt (callSequence h schema calls).1 schema = some s ∧
      (callSequence h schema calls).2 = calls.map (apiCall s) := by
  obtain ⟨hres, hg⟩ := callSequence_refines schema s calls h hdef
  exact ⟨hg.2, definitionAt_grows hg schema s hdef, hres⟩

/-- Witness for C12: the definition `{url: '/items', data: {defaults: {x: 1}}}` called with
`{x: 2}`, with `{}` and without data. The defaults at address 0 are still `{x: 1}`, and the
second call gets `x = 1`, not the `x = 2` of the first. -/
theorem definition_unchanged_by_calls_witness :
    definitionAt heapDefaultsX1 2 = some defaultsX1 ∧
      (callSequence heapDefaultsX1 2 [some dataX2, some Obj.empty, none]).1[0]? =
        some (Cell.plain dataX1) ∧
      (callSequence heapDefaultsX1 2 [some dataX2, some Obj.empty, none]).2 =
        [apiCall defaultsX1 (some dataX2), apiCall defaultsX1 (some Obj.empty),
          apiCall defaultsX1 none] ∧
      apiCall defaultsX1 (some Obj.empty) = Outcome.dispatched
        { url := some "/items", data := some dataX1, qs := some dataX1, body := some dataX1,
          json := some true } :=
  have hw := definition_unchanged_by_calls heapDefaultsX1 2 defaultsX1
    [some dataX2, some Obj.empty, none] rfl
  ⟨rfl, (hw.1 0 (by decide)).trans rfl, hw.2.2, by decide⟩

end RequestApiFactory
